import Mathlib

set_option maxRecDepth 8192

/-!
Verification development for the speech repository's session-token core:
the credential gate (`src/lib/auth/basic.ts`), the session token engine
(`src/lib/sessionToken.ts`) and the bearer branch of the HTTP request
handler.  JavaScript strings are modelled as Lean `String`s; where the
source observes UTF-16 code units (`charCodeAt`, `length`) we convert via
`utf16Units`.  Platform primitives (Node `Buffer` base64 codecs, UTF-8,
`JSON.parse`/`JSON.stringify`, HMAC-SHA256, `Date`) are modelled
concretely below; each model notes the primitive it stands for.
-/

namespace Speech

/-- UTF-16 code units of a string, as JavaScript sees it:
characters below 0x10000 are one unit, others a surrogate pair. -/
def utf16Units (s : String) : List Nat :=
  s.data.flatMap fun c =>
    if c.toNat < 0x10000 then [c.toNat]
    else [0xD800 + (c.toNat - 0x10000) / 0x400, 0xDC00 + (c.toNat - 0x10000) % 0x400]

/-- The loop body of `timingSafeCompare` (basic.ts lines 50-53), instrumented:
walks both code-unit lists accumulating `result |= a[i] ^ b[i]`, returning the
final accumulator together with the number of loop iterations executed. -/
def compareLoopInstr : List Nat → List Nat → Nat → Nat × Nat
  | x :: xs, y :: ys, r =>
    let p := compareLoopInstr xs ys (r ||| (x ^^^ y))
    (p.1, p.2 + 1)
  | _, _, r => (r, 0)

/-- `timingSafeCompare` from `src/lib/auth/basic.ts`: returns false when the
UTF-16 lengths differ, otherwise ORs together the XORs of every code unit and
compares the accumulator with 0. -/
def timingSafeCompare (a b : String) : Bool :=
  if (utf16Units a).length ≠ (utf16Units b).length then false
  else (compareLoopInstr (utf16Units a) (utf16Units b) 0).1 == 0

/-- `timingSafeCompare`, instrumented with the number of comparison-loop
iterations it performs (0 when it returns early on a length mismatch). -/
def timingSafeCompareInstr (a b : String) : Bool × Nat :=
  if (utf16Units a).length ≠ (utf16Units b).length then (false, 0)
  else ((compareLoopInstr (utf16Units a) (utf16Units b) 0).1 == 0,
        (compareLoopInstr (utf16Units a) (utf16Units b) 0).2)

/-- `verifyAppPassword` from `src/lib/auth/basic.ts`; the process-wide
`APP_PASSWORD` environment variable is passed explicitly (`none` = unset). -/
def verifyAppPassword (password : Option String) (appPassword : Option String) : Bool :=
  match appPassword with
  | none => false
  | some expected =>
    if expected = "" then false
    else timingSafeCompare (password.getD "") expected

/-- JavaScript `String.prototype.split` with a single-character separator. -/
def splitOnChar (sep : Char) : List Char → List (List Char)
  | [] => [[]]
  | c :: rest =>
    let r := splitOnChar sep rest
    if c = sep then [] :: r
    else
      match r with
      | g :: gs => (c :: g) :: gs
      | [] => [[c]]

/-- Whitespace set of JavaScript `String.prototype.trim` (WhiteSpace and
LineTerminator code points). -/
def jsIsWhitespace (c : Char) : Bool :=
  c.toNat = 0x9 ∨ c.toNat = 0xA ∨ c.toNat = 0xB ∨ c.toNat = 0xC ∨ c.toNat = 0xD ∨
  c.toNat = 0x20 ∨ c.toNat = 0xA0 ∨ c.toNat = 0x1680 ∨
  (0x2000 ≤ c.toNat ∧ c.toNat ≤ 0x200A) ∨
  c.toNat = 0x2028 ∨ c.toNat = 0x2029 ∨ c.toNat = 0x202F ∨ c.toNat = 0x205F ∨
  c.toNat = 0x3000 ∨ c.toNat = 0xFEFF

/-- JavaScript `String.prototype.trim`. -/
def jsTrim (s : String) : String :=
  String.mk (((s.data.dropWhile jsIsWhitespace).reverse.dropWhile jsIsWhitespace).reverse)

/-- ASCII lowercasing, modelling `String.prototype.toLowerCase` on the
ASCII-only inputs this program compares with. -/
def jsToLower (s : String) : String :=
  String.mk (s.data.map Char.toLower)

/-- Value of a base64 alphabet character.  Models the table of Node's
`Buffer` base64 decoder, which accepts both the standard and the
URL-and-filename-safe alphabets (RFC 4648 sections 4 and 5). -/
def b64val (c : Char) : Option Nat :=
  if 'A' ≤ c ∧ c ≤ 'Z' then some (c.toNat - 'A'.toNat)
  else if 'a' ≤ c ∧ c ≤ 'z' then some (c.toNat - 'a'.toNat + 26)
  else if '0' ≤ c ∧ c ≤ '9' then some (c.toNat - '0'.toNat + 52)
  else if c = '+' ∨ c = '-' then some 62
  else if c = '/' ∨ c = '_' then some 63
  else none

/-- Character of the base64url alphabet for a sextet value below 64. -/
def b64urlChar (n : Nat) : Char :=
  if n < 26 then Char.ofNat ('A'.toNat + n)
  else if n < 52 then Char.ofNat ('a'.toNat + n - 26)
  else if n < 62 then Char.ofNat ('0'.toNat + n - 52)
  else if n = 62 then '-'
  else '_'

/-- Regroup a list of sextets into bytes, 4 sextets to 3 bytes; a trailing
group of 2 or 3 sextets yields 1 or 2 bytes, a lone trailing sextet yields
nothing.  This is the core of Node's base64 decoder. -/
def sextetsToBytes : List Nat → List Nat
  | s0 :: s1 :: s2 :: s3 :: rest =>
    (s0 * 4 + s1 / 16) :: (s1 % 16 * 16 + s2 / 4) :: (s2 % 4 * 64 + s3) :: sextetsToBytes rest
  | [s0, s1, s2] => [s0 * 4 + s1 / 16, s1 % 16 * 16 + s2 / 4]
  | [s0, s1] => [s0 * 4 + s1 / 16]
  | _ => []

/-- Node `Buffer.from(string, "base64")` / `"base64url"`: decoding stops at
the first `=` and silently skips every character outside the (combined)
base64 alphabets, then regroups the surviving sextets into bytes. -/
def bufferBase64Decode (l : List Char) : List Nat :=
  sextetsToBytes ((l.takeWhile (· ≠ '=')).filterMap b64val)

/-- Base64url encoding of a byte list, without padding, as produced by Node
`Buffer.prototype.toString("base64url")`. -/
def base64urlEncodeList : List Nat → List Char
  | [] => []
  | [b0] => [b64urlChar (b0 / 4), b64urlChar (b0 % 4 * 16)]
  | [b0, b1] => [b64urlChar (b0 / 4), b64urlChar (b0 % 4 * 16 + b1 / 16), b64urlChar (b1 % 16 * 4)]
  | b0 :: b1 :: b2 :: rest =>
    b64urlChar (b0 / 4) :: b64urlChar (b0 % 4 * 16 + b1 / 16) ::
    b64urlChar (b1 % 16 * 4 + b2 / 64) :: b64urlChar (b2 % 64) :: base64urlEncodeList rest

/-- UTF-8 encoding of one Unicode scalar value. -/
def utf8EncodeChar (c : Char) : List Nat :=
  if c.toNat < 0x80 then [c.toNat]
  else if c.toNat < 0x800 then [0xC0 + c.toNat / 0x40, 0x80 + c.toNat % 0x40]
  else if c.toNat < 0x10000 then
    [0xE0 + c.toNat / 0x1000, 0x80 + c.toNat / 0x40 % 0x40, 0x80 + c.toNat % 0x40]
  else
    [0xF0 + c.toNat / 0x40000, 0x80 + c.toNat / 0x1000 % 0x40, 0x80 + c.toNat / 0x40 % 0x40,
     0x80 + c.toNat % 0x40]

/-- UTF-8 bytes of a character list (Node `Buffer.from(string, "utf8")`). -/
def utf8Encode (l : List Char) : List Nat :=
  l.flatMap utf8EncodeChar

/-- A scalar value as a character, or U+FFFD when it is not a valid scalar. -/
def ucharOr (n : Nat) : Char :=
  if n.isValidChar then Char.ofNat n else '�'

/-- Is `b` a UTF-8 continuation byte? -/
def isCont (b : Nat) : Bool := 0x80 ≤ b ∧ b < 0xC0

/-- One step of UTF-8 decoding: given a lead byte and the following bytes,
the decoded character (U+FFFD on malformed input) and how many continuation
bytes the step consumes. -/
def utf8Step (b : Nat) (rest : List Nat) : Char × Nat :=
  if b < 0x80 then (ucharOr b, 0)
  else if b < 0xC2 then ('�', 0)
  else if b < 0xE0 then
    match rest with
    | b1 :: _ =>
      if isCont b1 then (ucharOr ((b - 0xC0) * 0x40 + (b1 - 0x80)), 1) else ('�', 0)
    | [] => ('�', 0)
  else if b < 0xF0 then
    match rest with
    | b1 :: b2 :: _ =>
      if isCont b1 ∧ isCont b2 then
        (ucharOr ((b - 0xE0) * 0x1000 + (b1 - 0x80) * 0x40 + (b2 - 0x80)), 2)
      else ('�', 0)
    | _ => ('�', 0)
  else if b < 0xF5 then
    match rest with
    | b1 :: b2 :: b3 :: _ =>
      if isCont b1 ∧ isCont b2 ∧ isCont b3 then
        (ucharOr ((b - 0xF0) * 0x40000 + (b1 - 0x80) * 0x1000 + (b2 - 0x80) * 0x40 + (b3 - 0x80)), 3)
      else ('�', 0)
    | _ => ('�', 0)
  else ('�', 0)

/-- UTF-8 decoding with U+FFFD replacement on errors, modelling Node
`Buffer.prototype.toString("utf8")` (replacement granularity for malformed
sequences is simplified; it is exact on well-formed UTF-8). -/
def utf8DecodeList : List Nat → List Char
  | [] => []
  | b :: rest =>
    (utf8Step b rest).1 :: utf8DecodeList (rest.drop (utf8Step b rest).2)
termination_by l => l.length
decreasing_by simp only [List.length_cons, List.length_drop]; omega

/-! ### SHA-256 and HMAC (model of `node:crypto` `createHmac("sha256", …)`) -/

/-- Truncate to a 32-bit word. -/
def w32 (n : Nat) : Nat := n % 4294967296

/-- Right-rotate a 32-bit word by `k` bits. -/
def rotr32 (k x : Nat) : Nat := w32 (x / 2 ^ k + x % 2 ^ k * 2 ^ (32 - k))

/-- The 64 SHA-256 round constants. -/
def sha256K : List Nat :=
  [1116352408, 1899447441, 3049323471, 3921009573, 961987163, 1508970993, 2453635748, 2870763221,
   3624381080, 310598401, 607225278, 1426881987, 1925078388, 2162078206, 2614888103, 3248222580,
   3835390401, 4022224774, 264347078, 604807628, 770255983, 1249150122, 1555081692, 1996064986,
   2554220882, 2821834349, 2952996808, 3210313671, 3336571891, 3584528711, 113926993, 338241895,
   666307205, 773529912, 1294757372, 1396182291, 1695183700, 1986661051, 2177026350, 2456956037,
   2730485921, 2820302411, 3259730800, 3345764771, 3516065817, 3600352804, 4094571909, 275423344,
   430227734, 506948616, 659060556, 883997877, 958139571, 1322822218, 1537002063, 1747873779,
   1955562222, 2024104815, 2227730452, 2361852424, 2428436474, 2756734187, 3204031479, 3329325298]

/-- SHA-256 working state: the eight 32-bit hash words. -/
structure Sha256State where
  a : Nat
  b : Nat
  c : Nat
  d : Nat
  e : Nat
  f : Nat
  g : Nat
  h : Nat

/-- SHA-256 initial hash value. -/
def sha256Init : Sha256State :=
  ⟨1779033703, 3144134277, 1013904242, 2773480762, 1359893119, 2600822924, 528734635, 1541459225⟩

/-- Extend 16 message words into the 64-entry message schedule. -/
def sha256Schedule (ws : List Nat) : List Nat :=
  if h : ws.length < 64 then
    match hw : ws.length with
    | 0 => ws
    | n + 1 =>
      let w15 := ws.getD (n + 1 - 15) 0
      let w2 := ws.getD (n + 1 - 2) 0
      let s0 := (rotr32 7 w15) ^^^ (rotr32 18 w15) ^^^ (w15 / 2 ^ 3)
      let s1 := (rotr32 17 w2) ^^^ (rotr32 19 w2) ^^^ (w2 / 2 ^ 10)
      sha256Schedule (ws ++ [w32 (ws.getD (n + 1 - 16) 0 + s0 + ws.getD (n + 1 - 7) 0 + s1)])
  else ws
termination_by 64 - ws.length
decreasing_by simp [List.length_append]; omega

/-- One SHA-256 compression round. -/
def sha256Round (st : Sha256State) (kw : Nat) : Sha256State :=
  let s1 := (rotr32 6 st.e) ^^^ (rotr32 11 st.e) ^^^ (rotr32 25 st.e)
  let ch := (st.e &&& st.f) ^^^ ((st.e ^^^ 0xFFFFFFFF) &&& st.g)
  let t1 := w32 (st.h + s1 + ch + kw)
  let s0 := (rotr32 2 st.a) ^^^ (rotr32 13 st.a) ^^^ (rotr32 22 st.a)
  let mj := (st.a &&& st.b) ^^^ (st.a &&& st.c) ^^^ (st.b &&& st.c)
  let t2 := w32 (s0 + mj)
  ⟨w32 (t1 + t2), st.a, st.b, st.c, w32 (st.d + t1), st.e, st.f, st.g⟩

/-- Compress one 512-bit block (given as 16 words) into the running hash. -/
def sha256Block (st : Sha256State) (ws : List Nat) : Sha256State :=
  let sched := sha256Schedule ws
  let r := (sha256K.zip sched).foldl (fun s kw => sha256Round s (w32 (kw.1 + kw.2))) st
  ⟨w32 (st.a + r.a), w32 (st.b + r.b), w32 (st.c + r.c), w32 (st.d + r.d),
   w32 (st.e + r.e), w32 (st.f + r.f), w32 (st.g + r.g), w32 (st.h + r.h)⟩

/-- Pack bytes into big-endian 32-bit words, 4 bytes per word. -/
def bytesToWords : List Nat → List Nat
  | b0 :: b1 :: b2 :: b3 :: rest =>
    (b0 * 16777216 + b1 * 65536 + b2 * 256 + b3) :: bytesToWords rest
  | _ => []

/-- Split a word list into chunks of 16. -/
def chunk16 : List Nat → List (List Nat)
  | [] => []
  | w :: ws => (w :: ws).take 16 :: chunk16 ((w :: ws).drop 16)
termination_by ws => ws.length
decreasing_by simp [List.length_drop]; omega

/-- SHA-256 padding: append 0x80, zero bytes to 56 mod 64, and the 64-bit
big-endian bit length. -/
def sha256Pad (msg : List Nat) : List Nat :=
  let len := msg.length
  let zeros := (64 + 55 - len % 64) % 64
  let bits := len * 8
  msg ++ [0x80] ++ List.replicate zeros 0 ++
    [w32 (bits / 2 ^ 56) % 256, bits / 2 ^ 48 % 256, bits / 2 ^ 40 % 256, bits / 2 ^ 32 % 256,
     bits / 2 ^ 24 % 256, bits / 2 ^ 16 % 256, bits / 2 ^ 8 % 256, bits % 256]

/-- Serialize the final state as 32 big-endian bytes. -/
def sha256Out (st : Sha256State) : List Nat :=
  [st.a, st.b, st.c, st.d, st.e, st.f, st.g, st.h].flatMap fun x =>
    [x / 2 ^ 24 % 256, x / 2 ^ 16 % 256, x / 2 ^ 8 % 256, x % 256]

/-- SHA-256 of a byte list. -/
def sha256 (msg : List Nat) : List Nat :=
  sha256Out ((chunk16 (bytesToWords (sha256Pad msg))).foldl sha256Block sha256Init)

/-- HMAC-SHA256 (RFC 2104) over byte lists. -/
def hmacSha256 (key msg : List Nat) : List Nat :=
  let k0 := if key.length > 64 then sha256 key else key
  let kp := k0 ++ List.replicate (64 - k0.length) 0
  let ipad := kp.map (· ^^^ 0x36)
  let opad := kp.map (· ^^^ 0x5C)
  sha256 (opad ++ sha256 (ipad ++ msg))

/-- `createHmac("sha256", secret).update(msg).digest("base64url")` on
character-list inputs: UTF-8 encode, HMAC, base64url. -/
def hmacSha256Base64url (secret msg : List Char) : List Char :=
  base64urlEncodeList (hmacSha256 (utf8Encode secret) (utf8Encode msg))

/-! ### JSON (model of `JSON.stringify` / `JSON.parse`) -/

/-- A parsed JSON value (JavaScript value as produced by `JSON.parse`). -/
inductive JsVal where
  | null : JsVal
  | bool : Bool → JsVal
  | num : ℚ → JsVal
  | str : String → JsVal
  | arr : List JsVal → JsVal
  | obj : List (String × JsVal) → JsVal

/-- Decimal digits of a natural number, most significant first (helper). -/
def natToDigitsGo : Nat → List Char → List Char
  | 0, acc => acc
  | n + 1, acc =>
    natToDigitsGo ((n + 1) / 10) (Char.ofNat ('0'.toNat + (n + 1) % 10) :: acc)
termination_by n => n
decreasing_by omega

/-- Decimal representation of a natural number. -/
def natToDigits (n : Nat) : List Char :=
  if n = 0 then ['0'] else natToDigitsGo n []

/-- Decimal digits of the fractional part of `q ∈ [0,1)`, with fuel.  Stands
in for the fractional digits JavaScript prints; exact when the expansion
terminates within the fuel. -/
def fracDigits : Nat → ℚ → List Char
  | 0, _ => []
  | fuel + 1, q =>
    if q = 0 then []
    else
      let d := (⌊q * 10⌋).toNat
      Char.ofNat ('0'.toNat + d) :: fracDigits fuel (q * 10 - d)

/-- Decimal rendering of a rational, modelling how JavaScript prints the
numbers this program produces (integers exactly; finite decimals exactly). -/
def jsNumToString (q : ℚ) : List Char :=
  (if q < 0 then ['-'] else []) ++ natToDigits (⌊|q|⌋).toNat ++
    (if |q| - ⌊|q|⌋ = 0 then [] else '.' :: fracDigits 64 (|q| - ⌊|q|⌋))

/-- Lowercase hexadecimal digit. -/
def hexDigitChar (n : Nat) : Char :=
  if n < 10 then Char.ofNat ('0'.toNat + n) else Char.ofNat ('a'.toNat + n - 10)

/-- `JSON.stringify` escaping of one character: `"` and `\` get a backslash,
the named control escapes are used for \b \t \n \f \r, other control
characters become `\u00xx`, everything else is emitted verbatim. -/
def jsonEscapeChar (c : Char) : List Char :=
  if c = '"' then ['\\', '"']
  else if c = '\\' then ['\\', '\\']
  else if c.toNat = 8 then ['\\', 'b']
  else if c.toNat = 9 then ['\\', 't']
  else if c.toNat = 10 then ['\\', 'n']
  else if c.toNat = 12 then ['\\', 'f']
  else if c.toNat = 13 then ['\\', 'r']
  else if c.toNat < 32 then ['\\', 'u', '0', '0', hexDigitChar (c.toNat / 16), hexDigitChar (c.toNat % 16)]
  else [c]

/-- `JSON.stringify` of a string, including the surrounding quotes. -/
def jsonStringLit (s : String) : List Char :=
  '"' :: s.data.flatMap jsonEscapeChar ++ ['"']

/-- JSON whitespace accepted by `JSON.parse`. -/
def jsonWsChar (c : Char) : Bool :=
  c = ' ' ∨ c = '\t' ∨ c = '\n' ∨ c = '\r'

/-- Skip leading JSON whitespace. -/
def skipWs (l : List Char) : List Char :=
  l.dropWhile jsonWsChar

/-- Hexadecimal digit value. -/
def hexVal (c : Char) : Option Nat :=
  if '0' ≤ c ∧ c ≤ '9' then some (c.toNat - '0'.toNat)
  else if 'a' ≤ c ∧ c ≤ 'f' then some (c.toNat - 'a'.toNat + 10)
  else if 'A' ≤ c ∧ c ≤ 'F' then some (c.toNat - 'A'.toNat + 10)
  else none

/-- Decimal digit test. -/
def isDigitChar (c : Char) : Bool := '0' ≤ c ∧ c ≤ '9'

/-- Body of a JSON string literal, read after the opening quote.  Returns
the decoded characters and the input remaining after the closing quote
(with a certificate that input was consumed).  Lone `\uXXXX` surrogate
escapes become U+FFFD in this model. -/
def parseJsonStringBody : (l : List Char) → Option (List Char × {r : List Char // r.length < l.length})
  | [] => none
  | c :: rest =>
    if c = '"' then some ([], ⟨rest, by simp⟩)
    else if c.toNat < 32 then none
    else if c = '\\' then
      match rest with
      | [] => none
      | e :: rest1 =>
        if e = 'u' then
          match rest1 with
          | h1 :: h2 :: h3 :: h4 :: rest2 =>
            match hexVal h1, hexVal h2, hexVal h3, hexVal h4 with
            | some v1, some v2, some v3, some v4 =>
              match parseJsonStringBody rest2 with
              | some (s, ⟨r, hr⟩) =>
                some (ucharOr (v1 * 4096 + v2 * 256 + v3 * 16 + v4) :: s,
                      ⟨r, by simp only [List.length_cons]; omega⟩)
              | none => none
            | _, _, _, _ => none
          | _ => none
        else
          match
            (if e = '"' then some '"'
             else if e = '\\' then some '\\'
             else if e = '/' then some '/'
             else if e = 'b' then some (Char.ofNat 8)
             else if e = 't' then some (Char.ofNat 9)
             else if e = 'n' then some (Char.ofNat 10)
             else if e = 'f' then some (Char.ofNat 12)
             else if e = 'r' then some (Char.ofNat 13)
             else none) with
          | some ch =>
            match parseJsonStringBody rest1 with
            | some (s, ⟨r, hr⟩) => some (ch :: s, ⟨r, by simp only [List.length_cons]; omega⟩)
            | none => none
          | none => none
    else
      match parseJsonStringBody rest with
      | some (s, ⟨r, hr⟩) => some (c :: s, ⟨r, by simp only [List.length_cons]; omega⟩)
      | none => none
termination_by l => l.length
decreasing_by all_goals simp only [List.length_cons]; omega

/-- Consume leading decimal digits, returning the accumulated value, the
number of digits consumed, and the rest. -/
def parseDigitsCnt : (acc cnt : Nat) → (l : List Char) → Nat × Nat × {r : List Char // r.length ≤ l.length}
  | acc, cnt, [] => (acc, cnt, ⟨[], Nat.le_refl 0⟩)
  | acc, cnt, c :: rest =>
    if isDigitChar c then
      match parseDigitsCnt (acc * 10 + (c.toNat - '0'.toNat)) (cnt + 1) rest with
      | (a, k, ⟨r, hr⟩) => (a, k, ⟨r, by simp only [List.length_cons]; omega⟩)
    else (acc, cnt, ⟨c :: rest, Nat.le_refl _⟩)

/-- The optional fraction part of a JSON number: a dot followed by at least
one digit; anything else contributes zero and is left unconsumed. -/
def parseFracPart : (l : List Char) → ℚ × {r : List Char // r.length ≤ l.length}
  | c :: d2 :: r3 =>
    if c = '.' ∧ isDigitChar d2 then
      match parseDigitsCnt (d2.toNat - '0'.toNat) 1 r3 with
      | (fv, fc, ⟨r4, hr4⟩) =>
        ((fv : ℚ) / (10 : ℚ) ^ fc, ⟨r4, by simp only [List.length_cons]; omega⟩)
    else (0, ⟨c :: d2 :: r3, Nat.le_refl _⟩)
  | l => (0, ⟨l, Nat.le_refl _⟩)

/-- An exponent's signed digit string (after `e`/`E`). -/
def parseSignedDigits : (l : List Char) → Option (ℤ × {r : List Char // r.length ≤ l.length})
  | [] => none
  | s :: r6 =>
    if s = '+' ∨ s = '-' then
      match h6 : r6 with
      | d3 :: r7 =>
        if isDigitChar d3 then
          match parseDigitsCnt (d3.toNat - '0'.toNat) 1 r7 with
          | (ev, _, ⟨r8, hr8⟩) =>
            some ((if s = '-' then -(ev : ℤ) else (ev : ℤ)),
                  ⟨r8, by simp only [h6, List.length_cons]; omega⟩)
        else none
      | [] => none
    else if isDigitChar s then
      match parseDigitsCnt (s.toNat - '0'.toNat) 1 r6 with
      | (ev, _, ⟨r8, hr8⟩) => some ((ev : ℤ), ⟨r8, by simp only [List.length_cons]; omega⟩)
    else none

/-- The optional exponent part of a JSON number (evaluated exactly over ℚ). -/
def parseExpPart : (l : List Char) → Option (ℤ × {r : List Char // r.length ≤ l.length})
  | [] => some (0, ⟨[], Nat.le_refl _⟩)
  | e :: r5 =>
    if e = 'e' ∨ e = 'E' then
      match parseSignedDigits r5 with
      | some (v, ⟨r8, hr8⟩) => some (v, ⟨r8, by simp only [List.length_cons]; omega⟩)
      | none => none
    else some (0, ⟨e :: r5, Nat.le_refl _⟩)

/-- Digits, fraction and exponent of a JSON number, after its first digit
`d` has been consumed. -/
def parseUnsignedNumber (d : Char) (r0 : List Char) :
    Option (ℚ × {r : List Char // r.length ≤ r0.length}) :=
  match parseDigitsCnt (d.toNat - '0'.toNat) 1 r0 with
  | (ip, _, ⟨r1, hr1⟩) =>
    match parseFracPart r1 with
    | (fq, ⟨r4, hr4⟩) =>
      match parseExpPart r4 with
      | some (ex, ⟨r9, hr9⟩) => some (((ip : ℚ) + fq) * (10 : ℚ) ^ ex, ⟨r9, by omega⟩)
      | none => none

/-- A JSON number: optional minus, integer digits, optional fraction,
optional exponent (the exponent is evaluated exactly over ℚ). -/
def parseJsonNumber : (l : List Char) → Option (ℚ × {r : List Char // r.length < l.length})
  | [] => none
  | c :: rest =>
    if c = '-' then
      match h0 : rest with
      | d :: r0 =>
        if isDigitChar d then
          match parseUnsignedNumber d r0 with
          | some (q, ⟨r9, hr9⟩) =>
            some (-q, ⟨r9, by simp only [h0, List.length_cons]; omega⟩)
          | none => none
        else none
      | [] => none
    else if isDigitChar c then
      match parseUnsignedNumber c rest with
      | some (q, ⟨r9, hr9⟩) => some (q, ⟨r9, by simp only [List.length_cons]; omega⟩)
      | none => none
    else none

/-- A flat JSON scalar: string, number, `true`, `false` or `null`. -/
def parseScalar : (l : List Char) → Option (JsVal × {r : List Char // r.length < l.length})
  | [] => none
  | c :: rest =>
    if c = '"' then
      match parseJsonStringBody rest with
      | some (s, ⟨r, hr⟩) => some (.str (String.mk s), ⟨r, by simp only [List.length_cons]; omega⟩)
      | none => none
    else if c = 't' ∧ rest.take 3 = ['r', 'u', 'e'] then
      some (.bool true, ⟨rest.drop 3, by simp only [List.length_cons, List.length_drop]; omega⟩)
    else if c = 'f' ∧ rest.take 4 = ['a', 'l', 's', 'e'] then
      some (.bool false, ⟨rest.drop 4, by simp only [List.length_cons, List.length_drop]; omega⟩)
    else if c = 'n' ∧ rest.take 3 = ['u', 'l', 'l'] then
      some (.null, ⟨rest.drop 3, by simp only [List.length_cons, List.length_drop]; omega⟩)
    else
      match parseJsonNumber (c :: rest) with
      | some (q, ⟨r, hr⟩) => some (.num q, ⟨r, hr⟩)
      | none => none

/-- A nonempty comma-separated sequence of `"key": scalar` members followed
by the closing brace (the member loop of `JSON.parse` on a flat object). -/
def parseMemberSeq (l : List Char) :
    Option (List (String × JsVal) × {r : List Char // r.length ≤ l.length}) :=
  if (skipWs l).head? = some '"' then
    match parseJsonStringBody (skipWs l).tail with
    | none => none
    | some (key, ⟨r1, hr1⟩) =>
      if (skipWs r1).head? = some ':' then
        match parseScalar (skipWs (skipWs r1).tail) with
        | none => none
        | some (v, ⟨r4, hr4⟩) =>
          if (skipWs r4).head? = some ',' then
            match parseMemberSeq (skipWs r4).tail with
            | none => none
            | some (fields, ⟨r7, hr7⟩) =>
              some ((String.mk key, v) :: fields, ⟨r7, by
                have d1 := (List.dropWhile_sublist (l := l) jsonWsChar).length_le
                have d2 := (List.dropWhile_sublist (l := r1) jsonWsChar).length_le
                have d3 := (List.dropWhile_sublist (l := (skipWs r1).tail) jsonWsChar).length_le
                have d4 := (List.dropWhile_sublist (l := r4) jsonWsChar).length_le
                have t1 := List.length_tail (skipWs l)
                have t2 := List.length_tail (skipWs r1)
                have t3 := List.length_tail (skipWs r4)
                simp only [skipWs] at *
                omega⟩)
          else if (skipWs r4).head? = some '}' then
            some ([(String.mk key, v)], ⟨(skipWs r4).tail, by
              have d1 := (List.dropWhile_sublist (l := l) jsonWsChar).length_le
              have d2 := (List.dropWhile_sublist (l := r1) jsonWsChar).length_le
              have d3 := (List.dropWhile_sublist (l := (skipWs r1).tail) jsonWsChar).length_le
              have d4 := (List.dropWhile_sublist (l := r4) jsonWsChar).length_le
              have t1 := List.length_tail (skipWs l)
              have t2 := List.length_tail (skipWs r1)
              have t3 := List.length_tail (skipWs r4)
              simp only [skipWs] at *
              omega⟩)
          else none
      else none
  else none
termination_by l.length
decreasing_by
  have d1 := (List.dropWhile_sublist (l := l) jsonWsChar).length_le
  have d2 := (List.dropWhile_sublist (l := r1) jsonWsChar).length_le
  have d3 := (List.dropWhile_sublist (l := (skipWs r1).tail) jsonWsChar).length_le
  have d4 := (List.dropWhile_sublist (l := r4) jsonWsChar).length_le
  have t1 := List.length_tail (skipWs l)
  have t2 := List.length_tail (skipWs r1)
  have t3 := List.length_tail (skipWs r4)
  simp only [skipWs] at *
  omega

/-- Members of a flat JSON object, read after the opening brace: either an
immediate closing brace (empty object) or a nonempty member sequence.  This
models `JSON.parse` on the flat objects the token engine emits (nested
arrays/objects, which this program never produces, are rejected). -/
def parseMembersFlat (l : List Char) :
    Option (List (String × JsVal) × {r : List Char // r.length ≤ l.length}) :=
  if (skipWs l).head? = some '}' then
    some ([], ⟨(skipWs l).tail, by
      have d1 := (List.dropWhile_sublist (l := l) jsonWsChar).length_le
      have t1 := List.length_tail (skipWs l)
      simp only [skipWs] at *
      omega⟩)
  else parseMemberSeq l

/-- `JSON.parse` (model): whitespace-tolerant parse of a flat object or a
scalar, requiring the whole input to be consumed; `none` models the thrown
`SyntaxError`. -/
def jsonParse (s : String) : Option JsVal :=
  if (skipWs s.data).head? = some '{' then
    match parseMembersFlat (skipWs s.data).tail with
    | some (fields, ⟨r, _⟩) => if skipWs r = [] then some (.obj fields) else none
    | none => none
  else
    match parseScalar (skipWs s.data) with
    | some (v, ⟨r, _⟩) => if skipWs r = [] then some v else none
    | none => none

/-! ### Dates (model of JavaScript `Date`) -/

/-- Truncation of a rational toward zero (`ToIntegerOrInfinity`). -/
def ratTrunc (q : ℚ) : Int := if 0 ≤ q then ⌊q⌋ else -⌊-q⌋

/-- Civil date from days since the Unix epoch (proleptic Gregorian
calendar; Hinnant's `civil_from_days`). -/
def civilFromDays (z : Int) : Int × Nat × Nat :=
  let zs := z + 719468
  let era := Int.fdiv zs 146097
  let doe := (zs - era * 146097).toNat
  let yoe := (doe - doe / 1460 + doe / 36524 - doe / 146096) / 365
  let doy := doe - (365 * yoe + yoe / 4 - yoe / 100)
  let mp := (5 * doy + 2) / 153
  let d := doy - (153 * mp + 2) / 5 + 1
  let m := if mp < 10 then mp + 3 else mp - 9
  (era * 400 + yoe + (if m ≤ 2 then 1 else 0), m, d)

/-- Left-pad a natural number with zeros to `w` digits. -/
def pad (w n : Nat) : List Char :=
  List.replicate (w - (natToDigits n).length) '0' ++ natToDigits n

/-- `new Date(q).toISOString()`: `none` models the `RangeError` thrown when
the time value is outside ±8.64e15 ms; otherwise the ISO-8601 UTC string
(expanded `±YYYYYY` years outside 0000–9999). -/
def toISOStringQ (q : ℚ) : Option String :=
  if 8640000000000000 < |q| then none
  else
    let t := ratTrunc q
    let days := Int.ediv t 86400000
    let ms := (Int.emod t 86400000).toNat
    let ymd := civilFromDays days
    let y := ymd.1
    let yearPart : List Char :=
      if 0 ≤ y ∧ y ≤ 9999 then pad 4 y.toNat
      else if y < 0 then '-' :: pad 6 (-y).toNat
      else '+' :: pad 6 y.toNat
    some (String.mk (yearPart ++ '-' :: pad 2 ymd.2.1 ++ '-' :: pad 2 ymd.2.2 ++
      'T' :: pad 2 (ms / 3600000) ++ ':' :: pad 2 (ms % 3600000 / 60000) ++
      ':' :: pad 2 (ms % 60000 / 1000) ++ '.' :: pad 3 (ms % 1000) ++ ['Z']))

/-- Numeric value of two decimal digit characters. -/
def twoDig (a b : Char) : Nat := (a.toNat - 48) * 10 + (b.toNat - 48)

/-- Does `Date.parse` accept the string (i.e. is it not NaN)?  Models the
ECMAScript Date Time String Format on the complete UTC forms that
`toISOString` emits, including expanded-year forms. -/
def dateParseIsoValid (s : String) : Bool :=
  let core : List Char → Bool := fun l =>
    match l with
    | [m1, m2, h1, d1, d2, t, hh1, hh2, c1, mi1, mi2, c2, s1, s2, dt, f1, f2, f3, z] =>
      isDigitChar m1 ∧ isDigitChar m2 ∧ isDigitChar d1 ∧ isDigitChar d2 ∧
      isDigitChar hh1 ∧ isDigitChar hh2 ∧ isDigitChar mi1 ∧ isDigitChar mi2 ∧
      isDigitChar s1 ∧ isDigitChar s2 ∧ isDigitChar f1 ∧ isDigitChar f2 ∧ isDigitChar f3 ∧
      h1 = '-' ∧ t = 'T' ∧ c1 = ':' ∧ c2 = ':' ∧ dt = '.' ∧ z = 'Z' ∧
      1 ≤ twoDig m1 m2 ∧ twoDig m1 m2 ≤ 12 ∧ 1 ≤ twoDig d1 d2 ∧ twoDig d1 d2 ≤ 31 ∧
      twoDig hh1 hh2 < 24 ∧ twoDig mi1 mi2 < 60 ∧ twoDig s1 s2 < 60
    | _ => false
  (match s.data with
   | y1 :: y2 :: y3 :: y4 :: '-' :: rest =>
     isDigitChar y1 ∧ isDigitChar y2 ∧ isDigitChar y3 ∧ isDigitChar y4 ∧ core rest
   | _ => false) ||
  (match s.data with
   | sgn :: a1 :: a2 :: a3 :: a4 :: a5 :: a6 :: '-' :: rest2 =>
     (sgn = '+' ∨ sgn = '-') ∧ isDigitChar a1 ∧ isDigitChar a2 ∧ isDigitChar a3 ∧
     isDigitChar a4 ∧ isDigitChar a5 ∧ isDigitChar a6 ∧ core rest2
   | _ => false)

/-! ### Session token engine (`src/lib/sessionToken.ts`) -/

/-- The error kinds the engine can throw: `TokenExpiredError`,
`TokenInvalidError`, and the `RangeError` a `Date` method throws on an
unrepresentable time value; each carries its message. -/
inductive JsError where
  | tokenExpired : String → JsError
  | tokenInvalid : String → JsError
  | rangeError : String → JsError
deriving DecidableEq

/-- `SessionTokenPayload` as built by `createSessionToken` (JSON numbers are
rationals; the TTL arithmetic is exact for the integers this program uses). -/
structure SessionTokenPayload where
  jti : String
  scope : String
  iat : ℚ
  exp : ℚ
deriving DecidableEq

/-- `JSON.stringify({alg: "HS256", typ: "JWT"})`. -/
def jsonHeaderChars : List Char := "\x7b\"alg\":\"HS256\",\"typ\":\"JWT\"\x7d".data

/-- `JSON.stringify(payload)` for a payload object with fields in insertion
order `jti`, `scope`, `iat`, `exp`. -/
def jsonStringifyPayload (p : SessionTokenPayload) : List Char :=
  "\x7b\"jti\":".data ++ jsonStringLit p.jti ++ ",\"scope\":".data ++ jsonStringLit p.scope ++
  ",\"iat\":".data ++ jsNumToString p.iat ++ ",\"exp\":".data ++ jsNumToString p.exp ++ "\x7d".data

/-- The constant encoded JWT header segment. -/
def encodedHeaderConst : List Char := base64urlEncodeList (utf8Encode jsonHeaderChars)

/-- The encoded payload segment of `signPayload`. -/
def encodedPayloadOf (p : SessionTokenPayload) : List Char :=
  base64urlEncodeList (utf8Encode (jsonStringifyPayload p))

/-- `signPayload` from `src/lib/sessionToken.ts`, at the character level:
`encodedHeader.encodedPayload.signature` with an HMAC-SHA256 base64url
signature over `encodedHeader.encodedPayload`. -/
def signPayloadChars (p : SessionTokenPayload) (secret : String) : List Char :=
  let unsignedToken := encodedHeaderConst ++ '.' :: encodedPayloadOf p
  unsignedToken ++ '.' :: hmacSha256Base64url secret.data unsignedToken

/-- `signPayload` from `src/lib/sessionToken.ts`. -/
def signPayload (p : SessionTokenPayload) (secret : String) : String :=
  String.mk (signPayloadChars p secret)

/-- Result object of `createSessionToken`. -/
structure CreateSessionTokenResult where
  token : String
  scope : String
  expiresAt : String
deriving DecidableEq

/-- `DEFAULT_TTL_SECONDS` from `src/lib/sessionToken.ts`. -/
def DEFAULT_TTL_SECONDS : ℚ := 60

/-- `MAX_TTL_SECONDS` from `src/lib/sessionToken.ts`. -/
def MAX_TTL_SECONDS : ℚ := 300

/-- The payload `createSessionToken` builds after its guards: TTL clamped to
`MAX_TTL_SECONDS`, `iat = Math.floor(now.getTime() / 1000)`,
`exp = iat + boundedTtl`.  The caller-injected `jti` stands for
`randomUUID()`. -/
def sessionPayloadFor (scope : String) (ttl : ℚ) (nowMs : Nat) (jti : String) : SessionTokenPayload :=
  let boundedTtl := min ttl MAX_TTL_SECONDS
  let issuedAtSeconds : ℚ := (nowMs / 1000 : Nat)
  { jti := jti, scope := scope, iat := issuedAtSeconds, exp := issuedAtSeconds + boundedTtl }

/-- `createSessionToken` from `src/lib/sessionToken.ts`.  The clock
(`now`, in epoch ms), the secret and the random `jti` are injected; an
omitted `ttlSeconds` (`none`) takes the default.  The `Except.error` values
are the exceptions the source throws, including the `RangeError` that
`new Date(exp * 1000).toISOString()` raises on unrepresentable times. -/
def createSessionToken (scope : String) (ttlSeconds : Option ℚ) (nowMs : Nat)
    (secret : String) (jti : String) : Except JsError CreateSessionTokenResult :=
  let ttl := ttlSeconds.getD DEFAULT_TTL_SECONDS
  if jsTrim scope = "" then .error (.tokenInvalid "Scope is required")
  else if ttl ≤ 0 then .error (.tokenInvalid "TTL must be greater than 0")
  else
    let payload := sessionPayloadFor scope ttl nowMs jti
    match toISOStringQ (payload.exp * 1000) with
    | none => .error (.rangeError "Invalid time value")
    | some iso => .ok ⟨signPayload payload secret, scope, iso⟩

/-- The `requiredScope` option: a single string or an array of strings
(`none` = omitted). -/
inductive ScopeReq where
  | single : String → ScopeReq
  | multi : List String → ScopeReq

/-- JavaScript truthiness of the `requiredScope` option: `undefined` and the
empty string are falsy, arrays (even empty ones) are truthy. -/
def scopeReqTruthy : Option ScopeReq → Bool
  | none => false
  | some (.single s) => s ≠ ""
  | some (.multi _) => true

/-- `Array.isArray(requiredScope) ? requiredScope : [requiredScope]`. -/
def scopeReqList : ScopeReq → List String
  | .single s => [s]
  | .multi l => l

/-- JavaScript property read `payload[k]` on a parsed JSON value; `none`
models `undefined`.  Duplicate keys keep the last occurrence, as in
`JSON.parse`. -/
def jsGetField : JsVal → String → Option JsVal
  | .obj fields, k => ((fields.filter (fun f => f.1 = k)).getLast?).map (·.2)
  | _, _ => none

/-- JavaScript truthiness of a possibly-`undefined` JSON value. -/
def jsTruthy : Option JsVal → Bool
  | none => false
  | some .null => false
  | some (.bool b) => b
  | some (.num q) => q ≠ 0
  | some (.str s) => s ≠ ""
  | some (.arr _) => true
  | some (.obj _) => true

/-- `typeof v === "object"` (true for objects, arrays and `null`). -/
def isObjectTyped : JsVal → Bool
  | .null => true
  | .arr _ => true
  | .obj _ => true
  | _ => false

/-- `isSessionTokenExpired` from `src/lib/sessionToken.ts`:
`payload.exp * 1000 <= now.getTime()`.  A non-numeric `exp` multiplies to
NaN in JavaScript and every NaN comparison is false; the catch-all branch
models that. -/
def isSessionTokenExpired (payload : JsVal) (nowMs : Nat) : Bool :=
  match jsGetField payload "exp" with
  | some (.num q) => q * 1000 ≤ (nowMs : ℚ)
  | _ => false

/-- `assertValidPayload` from `src/lib/sessionToken.ts`; `some e` models the
exception it throws. -/
def assertValidPayload (payload : JsVal) (nowMs : Nat) (requiredScope : Option ScopeReq) :
    Option JsError :=
  if ¬ jsTruthy (some payload) ∨ ¬ isObjectTyped payload then
    some (.tokenInvalid "Token payload missing")
  else if ¬ jsTruthy (jsGetField payload "exp") ∨ ¬ jsTruthy (jsGetField payload "scope") then
    some (.tokenInvalid "Token payload missing fields")
  else if isSessionTokenExpired payload nowMs then
    some (.tokenExpired "Session token expired")
  else if scopeReqTruthy requiredScope then
    match jsGetField payload "scope" with
    | some (.str s) =>
      if s ∈ scopeReqList (requiredScope.getD (.single "")) then none
      else some (.tokenInvalid "Token scope is not permitted")
    | _ => some (.tokenInvalid "Token scope is not permitted")
  else none

/-- `verifySessionToken` from `src/lib/sessionToken.ts`, on the token's
characters.  `safeEqual` compares the UTF-8 byte buffers of the received and
recomputed signatures after a length check, which is exactly equality of the
character lists (UTF-8 encoding is injective). -/
def verifySessionTokenCore (token : List Char) (nowMs : Nat)
    (requiredScope : Option ScopeReq) (secret : String) : Except JsError JsVal :=
  if token = [] then .error (.tokenInvalid "Token is required")
  else
    match splitOnChar '.' token with
    | [encodedHeaderSeg, encodedPayload, receivedSignature] =>
      let unsignedToken := encodedHeaderSeg ++ '.' :: encodedPayload
      let expectedSignature := hmacSha256Base64url secret.data unsignedToken
      if receivedSignature ≠ expectedSignature then
        .error (.tokenInvalid "Token signature mismatch")
      else
        match jsonParse (String.mk (utf8DecodeList (bufferBase64Decode encodedPayload))) with
        | none => .error (.tokenInvalid "Token payload could not be parsed")
        | some payload =>
          match assertValidPayload payload nowMs requiredScope with
          | some e => .error e
          | none => .ok payload
    | _ => .error (.tokenInvalid "Token format is invalid")

/-- `verifySessionToken` from `src/lib/sessionToken.ts`.  Clock and secret
are injected; the returned `JsVal` is the parsed payload object the source
returns. -/
def verifySessionToken (token : String) (nowMs : Nat)
    (requiredScope : Option ScopeReq) (secret : String) : Except JsError JsVal :=
  verifySessionTokenCore token.data nowMs requiredScope secret

/-- The parsed-JSON form of a canonically serialized payload. -/
def payloadToJsVal (p : SessionTokenPayload) : JsVal :=
  .obj [("jti", .str p.jti), ("scope", .str p.scope), ("iat", .num p.iat), ("exp", .num p.exp)]

/-! ### Request handler, bearer branch (`src/unnamed/part_000`) -/

/-- A JSON response body: either `{ error }` or the session response shape
`{ token, expiresAt, scope }`. -/
inductive RespBody where
  | err : String → RespBody
  | session : (token expiresAt scope : String) → RespBody
deriving DecidableEq

/-- `handleBearerToken` from the route handler: slices off `"bearer "`,
trims, and maps the engine's outcome to an HTTP status and body.  The
response passes through `sessionResponseSchema.parse` inside the same
`try`; a failing schema check (or the `RangeError` from
`new Date(payload.exp * 1000)`) is neither `TokenExpiredError` nor
`TokenInvalidError` and so falls to the generic 500 handler. -/
def handleBearerToken (authHeader : String) (nowMs : Nat) (secret : String) : Nat × RespBody :=
  let token := jsTrim (String.mk (authHeader.data.drop 7))
  if token = "" then (401, .err "Session token is required")
  else
    match verifySessionToken token nowMs none secret with
    | .error (.tokenExpired msg) => (401, .err msg)
    | .error (.tokenInvalid msg) => (403, .err msg)
    | .error (.rangeError _) => (500, .err "Failed to validate session token")
    | .ok payload =>
      match jsGetField payload "exp" with
      | some (.num q) =>
        match toISOStringQ (q * 1000) with
        | none => (500, .err "Failed to validate session token")
        | some iso =>
          match jsGetField payload "scope" with
          | some (.str s) =>
            if token ≠ "" ∧ dateParseIsoValid iso ∧ s ≠ "" then (200, .session token iso s)
            else (500, .err "Failed to validate session token")
          | _ => (500, .err "Failed to validate session token")
      | _ => (500, .err "Failed to validate session token")

/-- `parseBasicAuthHeader` from `src/lib/auth/basic.ts`.  `none` for the
header models an absent (`null`/`undefined`) Authorization header.  The
source's try/catch around the decode is represented by the decoder being
total (Node's base64 decoder never throws). -/
def parseBasicAuthHeader (header : Option String) : Option (String × String) :=
  match header with
  | none => none
  | some h =>
    if h = "" then none
    else
      let parts := splitOnChar ' ' h.data
      let scheme := parts.headD []
      let value? := parts.drop 1 |>.head?
      if scheme = [] ∨ value? = none ∨ value? = some [] ∨
          jsToLower (String.mk scheme) ≠ "basic" then none
      else
        let decoded := utf8DecodeList (bufferBase64Decode (value?.getD []))
        let username := decoded.takeWhile (· ≠ ':')
        match decoded.dropWhile (· ≠ ':') with
        | [] => none
        | _ :: password => some (String.mk username, String.mk password)

/-! ### Helper lemmas -/

theorem nat_lor_eq_zero {a b : ℕ} : a ||| b = 0 ↔ a = 0 ∧ b = 0 := by
  constructor
  · intro h
    have hb : ∀ i, a.testBit i = false ∧ b.testBit i = false := by
      intro i
      have h2 := congrArg (fun x => Nat.testBit x i) h
      simp only [Nat.testBit_lor, Nat.zero_testBit, Bool.or_eq_false_iff] at h2
      exact h2
    exact ⟨Nat.eq_of_testBit_eq fun i => by simp [Nat.zero_testBit, (hb i).1],
           Nat.eq_of_testBit_eq fun i => by simp [Nat.zero_testBit, (hb i).2]⟩
  · rintro ⟨rfl, rfl⟩
    rfl

theorem compareLoopInstr_steps (xs : List ℕ) : ∀ (ys : List ℕ) (r : ℕ),
    (compareLoopInstr xs ys r).2 = min xs.length ys.length := by
  induction xs with
  | nil => intro ys r; cases ys <;> simp [compareLoopInstr]
  | cons x xs ih =>
    intro ys r
    cases ys with
    | nil => simp [compareLoopInstr]
    | cons y ys => simp [compareLoopInstr, ih]; omega

theorem compareLoopInstr_result (xs : List ℕ) : ∀ (ys : List ℕ) (r : ℕ),
    xs.length = ys.length → ((compareLoopInstr xs ys r).1 = 0 ↔ r = 0 ∧ xs = ys) := by
  induction xs with
  | nil =>
    intro ys r hlen
    cases ys with
    | nil => simp [compareLoopInstr]
    | cons y ys => simp at hlen
  | cons x xs ih =>
    intro ys r hlen
    cases ys with
    | nil => simp at hlen
    | cons y ys =>
      simp only [compareLoopInstr]
      rw [ih ys (r ||| (x ^^^ y)) (by simpa using hlen), nat_lor_eq_zero, Nat.xor_eq_zero]
      simp only [List.cons.injEq]
      tauto

theorem splitOnChar_not_mem {sep : Char} {l : List Char} (h : sep ∉ l) :
    splitOnChar sep l = [l] := by
  induction l with
  | nil => rfl
  | cons c rest ih =>
    have hc : c ≠ sep := fun hcs => h (hcs ▸ List.mem_cons_self c rest)
    have hrest : sep ∉ rest := fun hm => h (List.mem_cons_of_mem c hm)
    simp [splitOnChar, hc, ih hrest]

theorem splitOnChar_append {sep : Char} {l₁ : List Char} (l₂ : List Char) (h : sep ∉ l₁) :
    splitOnChar sep (l₁ ++ sep :: l₂) = l₁ :: splitOnChar sep l₂ := by
  induction l₁ with
  | nil => simp [splitOnChar]
  | cons c rest ih =>
    have hc : c ≠ sep := fun hcs => h (hcs ▸ List.mem_cons_self c rest)
    have hrest : sep ∉ rest := fun hm => h (List.mem_cons_of_mem c hm)
    have ihr := ih hrest
    simp only [List.cons_append, splitOnChar, if_neg hc, List.append_eq, ihr]

theorem takeWhile_append_first {p : Char → Bool} {u : List Char} (c : Char) (v : List Char)
    (hu : ∀ x ∈ u, p x) (hc : ¬ p c) :
    (u ++ c :: v).takeWhile p = u ∧ (u ++ c :: v).dropWhile p = c :: v := by
  induction u with
  | nil => simp [List.takeWhile, List.dropWhile, hc]
  | cons a u ih =>
    have ha : p a := hu a (List.mem_cons_self a u)
    have hu' : ∀ x ∈ u, p x := fun x hx => hu x (List.mem_cons_of_mem a hx)
    obtain ⟨h1, h2⟩ := ih hu'
    simp [List.takeWhile, List.dropWhile, ha, h1, h2]

theorem char_toNat_ofNat {n : Nat} (h : n.isValidChar) : (Char.ofNat n).toNat = n := by
  unfold Char.ofNat
  rw [dif_pos h]
  simp [Char.toNat, Char.ofNatAux, UInt32.toNat, BitVec.toNat_ofNatLt]

theorem b64urlChar_ne_dot : ∀ n, b64urlChar n ≠ '.' := by
  intro n
  have hA : 'A'.toNat = 65 := rfl
  have ha : 'a'.toNat = 97 := rfl
  have h0 : '0'.toNat = 48 := rfl
  have hdot : '.'.toNat = 46 := rfl
  unfold b64urlChar
  split
  · intro h
    have h2 := congrArg Char.toNat h
    rw [char_toNat_ofNat (Or.inl (by omega))] at h2
    omega
  · split
    · intro h
      have h2 := congrArg Char.toNat h
      rw [char_toNat_ofNat (Or.inl (by omega))] at h2
      omega
    · split
      · intro h
        have h2 := congrArg Char.toNat h
        rw [char_toNat_ofNat (Or.inl (by omega))] at h2
        omega
      · split <;> decide

theorem b64urlChar_ne_eqsign : ∀ n, b64urlChar n ≠ '=' := by
  intro n
  have hA : 'A'.toNat = 65 := rfl
  have ha : 'a'.toNat = 97 := rfl
  have h0 : '0'.toNat = 48 := rfl
  have heqs : '='.toNat = 61 := rfl
  unfold b64urlChar
  split
  · intro h
    have h2 := congrArg Char.toNat h
    rw [char_toNat_ofNat (Or.inl (by omega))] at h2
    omega
  · split
    · intro h
      have h2 := congrArg Char.toNat h
      rw [char_toNat_ofNat (Or.inl (by omega))] at h2
      omega
    · split
      · intro h
        have h2 := congrArg Char.toNat h
        rw [char_toNat_ofNat (Or.inl (by omega))] at h2
        omega
      · split <;> decide

theorem b64val_b64urlChar : ∀ n, n < 64 → b64val (b64urlChar n) = some n := by decide

theorem base64urlEncodeList_chars {l : List Nat} (hl : ∀ b ∈ l, b < 256) :
    ∀ c ∈ base64urlEncodeList l, ∃ n, n < 64 ∧ c = b64urlChar n := by
  induction l using base64urlEncodeList.induct with
  | case1 => simp [base64urlEncodeList]
  | case2 b0 =>
    have h0 := hl b0 (by simp)
    simp only [base64urlEncodeList, List.mem_cons, List.mem_singleton]
    rintro c (rfl | rfl | h)
    · exact ⟨b0 / 4, by omega, rfl⟩
    · exact ⟨b0 % 4 * 16, by omega, rfl⟩
    · simp at h
  | case3 b0 b1 =>
    have h0 := hl b0 (by simp)
    have h1 := hl b1 (by simp)
    simp only [base64urlEncodeList, List.mem_cons, List.mem_singleton]
    rintro c (rfl | rfl | rfl | h)
    · exact ⟨b0 / 4, by omega, rfl⟩
    · exact ⟨b0 % 4 * 16 + b1 / 16, by omega, rfl⟩
    · exact ⟨b1 % 16 * 4, by omega, rfl⟩
    · simp at h
  | case4 b0 b1 b2 rest ih =>
    have h0 := hl b0 (by simp)
    have h1 := hl b1 (by simp)
    have h2 := hl b2 (by simp)
    have hrest : ∀ b ∈ rest, b < 256 := fun b hb => hl b (by simp [hb])
    simp only [base64urlEncodeList, List.mem_cons]
    rintro c (rfl | rfl | rfl | rfl | h)
    · exact ⟨b0 / 4, by omega, rfl⟩
    · exact ⟨b0 % 4 * 16 + b1 / 16, by omega, rfl⟩
    · exact ⟨b1 % 16 * 4 + b2 / 64, by omega, rfl⟩
    · exact ⟨b2 % 64, by omega, rfl⟩
    · exact ih hrest c h

theorem dot_not_mem_base64urlEncodeList {l : List Nat} (hl : ∀ b ∈ l, b < 256) :
    '.' ∉ base64urlEncodeList l := by
  intro hmem
  obtain ⟨n, _, hn⟩ := base64urlEncodeList_chars hl '.' hmem
  exact b64urlChar_ne_dot n hn.symm

theorem eqsign_not_mem_base64urlEncodeList {l : List Nat} (hl : ∀ b ∈ l, b < 256) :
    '=' ∉ base64urlEncodeList l := by
  intro hmem
  obtain ⟨n, _, hn⟩ := base64urlEncodeList_chars hl '=' hmem
  exact b64urlChar_ne_eqsign n hn.symm

theorem takeWhile_all {p : Char → Bool} : ∀ {l : List Char}, (∀ x ∈ l, p x) → l.takeWhile p = l := by
  intro l
  induction l with
  | nil => intro _; rfl
  | cons c rest ih =>
    intro h
    simp [List.takeWhile, h c (List.mem_cons_self c rest), ih fun x hx => h x (List.mem_cons_of_mem c hx)]

theorem sextets_filterMap_encode {l : List Nat} (hl : ∀ b ∈ l, b < 256) :
    sextetsToBytes ((base64urlEncodeList l).filterMap b64val) = l := by
  induction l using base64urlEncodeList.induct with
  | case1 => simp [base64urlEncodeList, sextetsToBytes]
  | case2 b0 =>
    have h0 := hl b0 (by simp)
    simp only [base64urlEncodeList, List.filterMap_cons, b64val_b64urlChar _ (by omega : b0 / 4 < 64),
      b64val_b64urlChar _ (by omega : b0 % 4 * 16 < 64), List.filterMap_nil]
    simp only [sextetsToBytes]
    congr 1
    omega
  | case3 b0 b1 =>
    have h0 := hl b0 (by simp)
    have h1 := hl b1 (by simp)
    simp only [base64urlEncodeList, List.filterMap_cons, b64val_b64urlChar _ (by omega : b0 / 4 < 64),
      b64val_b64urlChar _ (by omega : b0 % 4 * 16 + b1 / 16 < 64),
      b64val_b64urlChar _ (by omega : b1 % 16 * 4 < 64), List.filterMap_nil]
    simp only [sextetsToBytes]
    congr 1
    · omega
    · congr 1
      omega
  | case4 b0 b1 b2 rest ih =>
    have h0 := hl b0 (by simp)
    have h1 := hl b1 (by simp)
    have h2 := hl b2 (by simp)
    have hrest : ∀ b ∈ rest, b < 256 := fun b hb => hl b (by simp [hb])
    simp only [base64urlEncodeList, List.filterMap_cons, b64val_b64urlChar _ (by omega : b0 / 4 < 64),
      b64val_b64urlChar _ (by omega : b0 % 4 * 16 + b1 / 16 < 64),
      b64val_b64urlChar _ (by omega : b1 % 16 * 4 + b2 / 64 < 64),
      b64val_b64urlChar _ (by omega : b2 % 64 < 64)]
    simp only [sextetsToBytes, ih hrest]
    congr 1
    · omega
    · congr 1
      · omega
      · congr 1
        omega

theorem bufferBase64Decode_encode {l : List Nat} (hl : ∀ b ∈ l, b < 256) :
    bufferBase64Decode (base64urlEncodeList l) = l := by
  unfold bufferBase64Decode
  have hne : ∀ x ∈ base64urlEncodeList l, (x ≠ '=' : Bool) := by
    intro x hx
    simp only [ne_eq, decide_eq_true_eq]
    intro heq
    exact eqsign_not_mem_base64urlEncodeList hl (heq ▸ hx)
  rw [takeWhile_all hne]
  exact sextets_filterMap_encode hl

theorem char_toNat_lt (c : Char) : c.toNat < 1114112 := by
  have h := c.valid
  rcases h with h | ⟨h1, h2⟩ <;> simp [Char.toNat] at * <;> omega

theorem char_toNat_valid (c : Char) : (c.toNat).isValidChar := by
  have h := c.valid
  rcases h with h | ⟨h1, h2⟩
  · exact Or.inl (by simpa [Char.toNat] using h)
  · exact Or.inr ⟨by simpa [Char.toNat] using h1, by simpa [Char.toNat] using h2⟩

theorem ucharOr_toNat (c : Char) : ucharOr c.toNat = c := by
  rw [ucharOr, if_pos (char_toNat_valid c), Char.ofNat_toNat]

theorem utf8EncodeChar_lt (c : Char) : ∀ b ∈ utf8EncodeChar c, b < 256 := by
  have hc := char_toNat_lt c
  unfold utf8EncodeChar
  split
  · intro b hb; simp at hb; omega
  · split
    · intro b hb; simp at hb; rcases hb with rfl | rfl <;> omega
    · split
      · intro b hb; simp at hb; rcases hb with rfl | rfl | rfl <;> omega
      · intro b hb; simp at hb; rcases hb with rfl | rfl | rfl | rfl <;> omega

theorem utf8Encode_lt (l : List Char) : ∀ b ∈ utf8Encode l, b < 256 := by
  intro b hb
  simp only [utf8Encode, List.mem_flatMap] at hb
  obtain ⟨c, _, hbc⟩ := hb
  exact utf8EncodeChar_lt c b hbc

theorem utf8DecodeList_encodeChar (c : Char) (rest : List Nat) :
    utf8DecodeList (utf8EncodeChar c ++ rest) = c :: utf8DecodeList rest := by
  have hlt := char_toNat_lt c
  by_cases h1 : c.toNat < 0x80
  · rw [show utf8EncodeChar c = [c.toNat] from by unfold utf8EncodeChar; rw [if_pos h1]]
    rw [List.cons_append, List.nil_append, utf8DecodeList]
    have hs : utf8Step c.toNat rest = (ucharOr c.toNat, 0) := by
      simp only [utf8Step, if_pos h1]
    rw [hs, ucharOr_toNat]
    simp
  · by_cases h2 : c.toNat < 0x800
    · rw [show utf8EncodeChar c = [0xC0 + c.toNat / 0x40, 0x80 + c.toNat % 0x40] from by
        unfold utf8EncodeChar; rw [if_neg h1, if_pos h2]]
      rw [List.cons_append, List.cons_append, List.nil_append, utf8DecodeList]
      have hs : utf8Step (0xC0 + c.toNat / 0x40) ((0x80 + c.toNat % 0x40) :: rest) =
          (ucharOr c.toNat, 1) := by
        have hc : isCont (0x80 + c.toNat % 0x40) = true := by simp [isCont]; omega
        simp only [utf8Step, if_neg (by omega : ¬ (0xC0 + c.toNat / 0x40 < 0x80)),
          if_neg (by omega : ¬ (0xC0 + c.toNat / 0x40 < 0xC2)),
          if_pos (by omega : 0xC0 + c.toNat / 0x40 < 0xE0), hc, if_true]
        have hv : (0xC0 + c.toNat / 0x40 - 0xC0) * 0x40 + (0x80 + c.toNat % 0x40 - 0x80) = c.toNat := by
          omega
        rw [hv]
      rw [hs, ucharOr_toNat]
      simp
    · by_cases h3 : c.toNat < 0x10000
      · rw [show utf8EncodeChar c =
            [0xE0 + c.toNat / 0x1000, 0x80 + c.toNat / 0x40 % 0x40, 0x80 + c.toNat % 0x40] from by
          unfold utf8EncodeChar; rw [if_neg h1, if_neg h2, if_pos h3]]
        rw [List.cons_append, List.cons_append, List.cons_append, List.nil_append, utf8DecodeList]
        have hs : utf8Step (0xE0 + c.toNat / 0x1000)
            ((0x80 + c.toNat / 0x40 % 0x40) :: (0x80 + c.toNat % 0x40) :: rest) =
            (ucharOr c.toNat, 2) := by
          have hc : (isCont (0x80 + c.toNat / 0x40 % 0x40) ∧ isCont (0x80 + c.toNat % 0x40)) = True := by
            simp [isCont]; omega
          simp only [utf8Step, if_neg (by omega : ¬ (0xE0 + c.toNat / 0x1000 < 0x80)),
            if_neg (by omega : ¬ (0xE0 + c.toNat / 0x1000 < 0xC2)),
            if_neg (by omega : ¬ (0xE0 + c.toNat / 0x1000 < 0xE0)),
            if_pos (by omega : 0xE0 + c.toNat / 0x1000 < 0xF0), hc, if_true]
          have hv : (0xE0 + c.toNat / 0x1000 - 0xE0) * 0x1000 +
              (0x80 + c.toNat / 0x40 % 0x40 - 0x80) * 0x40 +
              (0x80 + c.toNat % 0x40 - 0x80) = c.toNat := by omega
          rw [hv]
        rw [hs, ucharOr_toNat]
        simp
      · rw [show utf8EncodeChar c =
            [0xF0 + c.toNat / 0x40000, 0x80 + c.toNat / 0x1000 % 0x40,
             0x80 + c.toNat / 0x40 % 0x40, 0x80 + c.toNat % 0x40] from by
          unfold utf8EncodeChar; rw [if_neg h1, if_neg h2, if_neg h3]]
        rw [List.cons_append, List.cons_append, List.cons_append, List.cons_append, List.nil_append,
          utf8DecodeList]
        have hs : utf8Step (0xF0 + c.toNat / 0x40000)
            ((0x80 + c.toNat / 0x1000 % 0x40) :: (0x80 + c.toNat / 0x40 % 0x40) ::
             (0x80 + c.toNat % 0x40) :: rest) = (ucharOr c.toNat, 3) := by
          have hc : (isCont (0x80 + c.toNat / 0x1000 % 0x40) ∧ isCont (0x80 + c.toNat / 0x40 % 0x40) ∧
              isCont (0x80 + c.toNat % 0x40)) = True := by
            simp [isCont]; omega
          simp only [utf8Step, if_neg (by omega : ¬ (0xF0 + c.toNat / 0x40000 < 0x80)),
            if_neg (by omega : ¬ (0xF0 + c.toNat / 0x40000 < 0xC2)),
            if_neg (by omega : ¬ (0xF0 + c.toNat / 0x40000 < 0xE0)),
            if_neg (by omega : ¬ (0xF0 + c.toNat / 0x40000 < 0xF0)),
            if_pos (by omega : 0xF0 + c.toNat / 0x40000 < 0xF5), hc, if_true]
          have hv : (0xF0 + c.toNat / 0x40000 - 0xF0) * 0x40000 +
              (0x80 + c.toNat / 0x1000 % 0x40 - 0x80) * 0x1000 +
              (0x80 + c.toNat / 0x40 % 0x40 - 0x80) * 0x40 + (0x80 + c.toNat % 0x40 - 0x80) = c.toNat := by
            omega
          rw [hv]
        rw [hs, ucharOr_toNat]
        simp

theorem utf8DecodeList_encode (l : List Char) : utf8DecodeList (utf8Encode l) = l := by
  induction l with
  | nil => rw [show utf8Encode [] = [] from rfl, utf8DecodeList]
  | cons c rest ih =>
    rw [show utf8Encode (c :: rest) = utf8EncodeChar c ++ utf8Encode rest from by
      simp [utf8Encode]]
    rw [utf8DecodeList_encodeChar, ih]

theorem isDigitChar_toNat {c : Char} (h : isDigitChar c = true) : 48 ≤ c.toNat ∧ c.toNat ≤ 57 := by
  simp only [isDigitChar, decide_eq_true_eq] at h
  obtain ⟨h1, h2⟩ := h
  simp only [Char.le_def] at h1 h2
  constructor
  · simpa [Char.toNat] using h1
  · simpa [Char.toNat] using h2

theorem char_ne_of_toNat_ne {c d : Char} (h : c.toNat ≠ d.toNat) : c ≠ d :=
  fun he => h (congrArg Char.toNat he)

theorem natToDigitsGo_append (n : ℕ) : ∀ acc, natToDigitsGo n acc = natToDigitsGo n [] ++ acc := by
  induction n using Nat.strong_induction_on with
  | _ n ih =>
    intro acc
    match n with
    | 0 => simp [natToDigitsGo]
    | m + 1 =>
      rw [natToDigitsGo, natToDigitsGo]
      rw [ih ((m + 1) / 10) (by omega) (Char.ofNat ('0'.toNat + (m + 1) % 10) :: acc),
        ih ((m + 1) / 10) (by omega) [Char.ofNat ('0'.toNat + (m + 1) % 10)]]
      simp

theorem digitChar_toNat : ∀ d, d < 10 → (Char.ofNat (48 + d)).toNat = 48 + d := by decide

theorem digitChar_isDigit : ∀ d, d < 10 → isDigitChar (Char.ofNat (48 + d)) = true := by decide

theorem natToDigitsGo_all_digits (n : ℕ) :
    ∀ c ∈ natToDigitsGo n [], isDigitChar c = true := by
  induction n using Nat.strong_induction_on with
  | _ n ih =>
    match n with
    | 0 => simp [natToDigitsGo]
    | m + 1 =>
      intro c hc
      rw [natToDigitsGo, natToDigitsGo_append] at hc
      rcases List.mem_append.mp hc with h | h
      · exact ih ((m + 1) / 10) (by omega) c h
      · simp at h
        subst h
        exact digitChar_isDigit _ (by omega)

theorem natToDigits_all_digits (n : ℕ) : ∀ c ∈ natToDigits n, isDigitChar c = true := by
  unfold natToDigits
  split
  · intro c hc
    simp at hc
    subst hc
    decide
  · exact natToDigitsGo_all_digits n

theorem natToDigitsGo_ne_nil (n : ℕ) (h : n ≠ 0) : natToDigitsGo n [] ≠ [] := by
  match n with
  | m + 1 =>
    rw [natToDigitsGo, natToDigitsGo_append]
    simp

theorem natToDigits_ne_nil (n : ℕ) : natToDigits n ≠ [] := by
  unfold natToDigits
  split
  · simp
  · exact natToDigitsGo_ne_nil n (by omega)

theorem natToDigitsGo_foldl (n : ℕ) :
    ∀ a : ℕ, (natToDigitsGo n []).foldl (fun x c => x * 10 + (c.toNat - 48)) a =
      a * 10 ^ (natToDigitsGo n []).length + n := by
  induction n using Nat.strong_induction_on with
  | _ n ih =>
    intro a
    match n with
    | 0 => simp [natToDigitsGo]
    | m + 1 =>
      rw [natToDigitsGo, natToDigitsGo_append]
      rw [List.foldl_append, List.length_append]
      rw [ih ((m + 1) / 10) (by omega) a]
      simp only [List.foldl_cons, List.foldl_nil, List.length_cons, List.length_nil,
        show '0'.toNat = 48 from rfl]
      rw [digitChar_toNat _ (by omega)]
      have hdm := Nat.div_add_mod (m + 1) 10
      rw [pow_succ]
      have : 48 + (m + 1) % 10 - 48 = (m + 1) % 10 := by omega
      rw [this]
      calc (a * 10 ^ (natToDigitsGo ((m + 1) / 10) []).length + (m + 1) / 10) * 10 + (m + 1) % 10
          = a * (10 ^ (natToDigitsGo ((m + 1) / 10) []).length * 10) +
            ((m + 1) / 10 * 10 + (m + 1) % 10) := by ring
        _ = a * (10 ^ (natToDigitsGo ((m + 1) / 10) []).length * 10) + (m + 1) := by
            congr 1
            omega

theorem natToDigits_foldl (n : ℕ) :
    (natToDigits n).foldl (fun x c => x * 10 + (c.toNat - 48)) 0 = n := by
  unfold natToDigits
  split
  · simp_all
  · rw [natToDigitsGo_foldl]
    simp

theorem jsNumToString_natCast (n : ℕ) : jsNumToString (n : ℚ) = natToDigits n := by
  unfold jsNumToString
  have h0 : (0 : ℚ) ≤ (n : ℚ) := by positivity
  have h1 : ¬((n : ℚ) < 0) := not_lt.mpr h0
  have h2 : |(n : ℚ)| = (n : ℚ) := abs_of_nonneg h0
  have h3 : ⌊(n : ℚ)⌋ = (n : ℤ) := Int.floor_natCast n
  rw [if_neg h1, h2, h3]
  simp

theorem parseDigitsCnt_spec : ∀ (ds : List Char) (acc cnt : ℕ) (rest : List Char),
    (∀ c ∈ ds, isDigitChar c = true) →
    (match rest with | [] => True | c :: _ => isDigitChar c = false) →
    (parseDigitsCnt acc cnt (ds ++ rest)).1 = ds.foldl (fun x c => x * 10 + (c.toNat - 48)) acc ∧
    (parseDigitsCnt acc cnt (ds ++ rest)).2.1 = cnt + ds.length ∧
    (parseDigitsCnt acc cnt (ds ++ rest)).2.2.val = rest := by
  intro ds
  induction ds with
  | nil =>
    intro acc cnt rest _ hrest
    cases rest with
    | nil => simp [parseDigitsCnt]
    | cons r t =>
      simp only [List.nil_append, parseDigitsCnt, hrest]
      simp [hrest]
  | cons d ds ih =>
    intro acc cnt rest hds hrest
    have hd : isDigitChar d = true := hds d (List.mem_cons_self d ds)
    have hds' : ∀ c ∈ ds, isDigitChar c = true := fun c hc => hds c (List.mem_cons_of_mem d hc)
    simp only [List.cons_append, parseDigitsCnt, hd, if_true, List.append_eq,
      show '0'.toNat = 48 from rfl]
    obtain ⟨ih1, ih2, ih3⟩ := ih (acc * 10 + (d.toNat - 48)) (cnt + 1) rest hds' hrest
    rcases hm : parseDigitsCnt (acc * 10 + (d.toNat - 48)) (cnt + 1) (ds ++ rest) with ⟨a, k, ⟨r, hr⟩⟩
    rw [hm] at ih1 ih2 ih3
    simp only at ih1 ih2 ih3 ⊢
    simp only [List.foldl_cons, List.length_cons]
    exact ⟨ih1, by omega, ih3⟩

theorem hexVal_hexDigitChar : ∀ v, v < 16 → hexVal (hexDigitChar v) = some v := by decide

theorem parseJsonStringBody_escape (l : List Char) : ∀ (rest : List Char),
    (parseJsonStringBody (l.flatMap jsonEscapeChar ++ '"' :: rest)).map (fun p => (p.1, p.2.val)) =
      some (l, rest) := by
  induction l with
  | nil =>
    intro rest
    rw [List.flatMap_nil, List.nil_append, parseJsonStringBody.eq_def]
    dsimp only
    rw [if_pos rfl]
    rfl
  | cons c l ih =>
    intro rest
    have ihr := ih rest
    rw [List.flatMap_cons, List.append_assoc]
    by_cases h1 : c = '"'
    · subst h1
      rw [show jsonEscapeChar '"' = ['\\', '"'] from rfl]
      rw [List.cons_append, List.cons_append, List.nil_append, parseJsonStringBody.eq_def]
      dsimp only
      rw [if_neg (by decide), if_neg (by decide), if_pos rfl, if_neg (by decide), if_pos rfl]
      rcases hp : parseJsonStringBody (l.flatMap jsonEscapeChar ++ '"' :: rest) with _ | ⟨sx, ⟨r, hr⟩⟩
      · rw [hp] at ihr; simp at ihr
      · rw [hp] at ihr
        simp at ihr
        obtain ⟨hs, hr2⟩ := ihr
        subst hs; subst hr2
        rfl
    · by_cases h2 : c = '\\'
      · subst h2
        rw [show jsonEscapeChar '\\' = ['\\', '\\'] from rfl]
        rw [List.cons_append, List.cons_append, List.nil_append, parseJsonStringBody.eq_def]
        dsimp only
        rw [if_neg (by decide), if_neg (by decide), if_pos rfl, if_neg (by decide),
          if_neg (by decide), if_pos rfl]
        rcases hp : parseJsonStringBody (l.flatMap jsonEscapeChar ++ '"' :: rest) with _ | ⟨sx, ⟨r, hr⟩⟩
        · rw [hp] at ihr; simp at ihr
        · rw [hp] at ihr
          simp at ihr
          obtain ⟨hs, hr2⟩ := ihr
          subst hs; subst hr2
          rfl
      · by_cases hctl : c.toNat < 32
        · have hesc : ∃ e : Char, (jsonEscapeChar c = ['\\', e] ∧
              (e ≠ 'u' ∧
                ((e = '"' ∧ c.toNat = 34) ∨ (e = 'b' ∧ c.toNat = 8) ∨ (e = 't' ∧ c.toNat = 9) ∨
                 (e = 'n' ∧ c.toNat = 10) ∨ (e = 'f' ∧ c.toNat = 12) ∨ (e = 'r' ∧ c.toNat = 13)))) ∨
              jsonEscapeChar c =
                ['\\', 'u', '0', '0', hexDigitChar (c.toNat / 16), hexDigitChar (c.toNat % 16)] := by
            by_cases h8 : c.toNat = 8
            · exact ⟨'b', Or.inl ⟨by rw [jsonEscapeChar, if_neg h1, if_neg h2, if_pos h8],
                by decide, Or.inr (Or.inl ⟨rfl, h8⟩)⟩⟩
            · by_cases h9 : c.toNat = 9
              · exact ⟨'t', Or.inl ⟨by rw [jsonEscapeChar, if_neg h1, if_neg h2, if_neg h8, if_pos h9],
                  by decide, Or.inr (Or.inr (Or.inl ⟨rfl, h9⟩))⟩⟩
              · by_cases h10 : c.toNat = 10
                · exact ⟨'n', Or.inl ⟨by rw [jsonEscapeChar, if_neg h1, if_neg h2, if_neg h8,
                    if_neg h9, if_pos h10], by decide, Or.inr (Or.inr (Or.inr (Or.inl ⟨rfl, h10⟩)))⟩⟩
                · by_cases h12 : c.toNat = 12
                  · exact ⟨'f', Or.inl ⟨by rw [jsonEscapeChar, if_neg h1, if_neg h2, if_neg h8,
                      if_neg h9, if_neg h10, if_pos h12], by decide,
                      Or.inr (Or.inr (Or.inr (Or.inr (Or.inl ⟨rfl, h12⟩))))⟩⟩
                  · by_cases h13 : c.toNat = 13
                    · exact ⟨'r', Or.inl ⟨by rw [jsonEscapeChar, if_neg h1, if_neg h2, if_neg h8,
                        if_neg h9, if_neg h10, if_neg h12, if_pos h13], by decide,
                        Or.inr (Or.inr (Or.inr (Or.inr (Or.inr ⟨rfl, h13⟩))))⟩⟩
                    · exact ⟨'u', Or.inr (by rw [jsonEscapeChar, if_neg h1, if_neg h2, if_neg h8,
                        if_neg h9, if_neg h10, if_neg h12, if_neg h13, if_pos hctl])⟩
          obtain ⟨e, ⟨heq, hnu, hval⟩ | hcase⟩ := hesc
          · rw [heq]
            rw [List.cons_append, List.cons_append, List.nil_append, parseJsonStringBody.eq_def]
            dsimp only
            rw [if_neg (by decide), if_neg (by decide), if_pos rfl, if_neg hnu]
            have htab : (if e = '"' then some '"'
                else if e = '\\' then some '\\'
                else if e = '/' then some '/'
                else if e = 'b' then some (Char.ofNat 8)
                else if e = 't' then some (Char.ofNat 9)
                else if e = 'n' then some (Char.ofNat 10)
                else if e = 'f' then some (Char.ofNat 12)
                else if e = 'r' then some (Char.ofNat 13)
                else none) = some c := by
              rcases hval with ⟨rfl, hv⟩ | ⟨rfl, hv⟩ | ⟨rfl, hv⟩ | ⟨rfl, hv⟩ | ⟨rfl, hv⟩ | ⟨rfl, hv⟩ <;>
                simp only [reduceIte] <;>
                exact congrArg some (by rw [← Char.ofNat_toNat c, hv])
            rw [htab]
            rcases hp : parseJsonStringBody (l.flatMap jsonEscapeChar ++ '"' :: rest) with _ | ⟨sx, ⟨r, hr⟩⟩
            · rw [hp] at ihr; simp at ihr
            · rw [hp] at ihr
              simp at ihr
              obtain ⟨hs, hr2⟩ := ihr
              subst hs; subst hr2
              rfl
          · rw [hcase]
            rw [List.cons_append, List.cons_append, List.cons_append, List.cons_append,
              List.cons_append, List.cons_append, List.nil_append, parseJsonStringBody.eq_def]
            dsimp only
            rw [if_neg (by decide), if_neg (by decide), if_pos rfl, if_pos rfl]
            rw [show hexVal '0' = some 0 from rfl]
            rw [hexVal_hexDigitChar (c.toNat / 16) (by omega),
              hexVal_hexDigitChar (c.toNat % 16) (by omega)]
            dsimp only
            have hv : (0 * 4096 + 0 * 256 + c.toNat / 16 * 16 + c.toNat % 16) = c.toNat := by omega
            rw [hv, ucharOr_toNat]
            rcases hp : parseJsonStringBody (l.flatMap jsonEscapeChar ++ '"' :: rest) with _ | ⟨sx, ⟨r, hr⟩⟩
            · rw [hp] at ihr; simp at ihr
            · rw [hp] at ihr
              simp at ihr
              obtain ⟨hs, hr2⟩ := ihr
              subst hs; subst hr2
              rfl
        · rw [show jsonEscapeChar c = [c] from by
            rw [jsonEscapeChar, if_neg h1, if_neg h2, if_neg (by omega), if_neg (by omega),
              if_neg (by omega), if_neg (by omega), if_neg (by omega), if_neg hctl]]
          rw [List.cons_append, List.nil_append, parseJsonStringBody.eq_def]
          dsimp only
          rw [if_neg h1, if_neg hctl, if_neg h2]
          rcases hp : parseJsonStringBody (l.flatMap jsonEscapeChar ++ '"' :: rest) with _ | ⟨sx, ⟨r, hr⟩⟩
          · rw [hp] at ihr; simp at ihr
          · rw [hp] at ihr
            simp at ihr
            obtain ⟨hs, hr2⟩ := ihr
            subst hs; subst hr2
            rfl

theorem parseFracPart_no_dot (l : List Char)
    (h : ∀ c t, l = c :: t → c ≠ '.') :
    parseFracPart l = (0, ⟨l, Nat.le_refl _⟩) := by
  match l with
  | [] => rfl
  | [c] => rfl
  | c :: d2 :: r3 =>
    have hc := h c (d2 :: r3) rfl
    rw [parseFracPart.eq_def]
    dsimp only
    rw [if_neg (by simp [hc])]

theorem parseExpPart_no_e (l : List Char)
    (h : ∀ c t, l = c :: t → c ≠ 'e' ∧ c ≠ 'E') :
    parseExpPart l = some (0, ⟨l, Nat.le_refl _⟩) := by
  cases l with
  | nil => rfl
  | cons c t =>
    have hc := h c t rfl
    rw [parseExpPart.eq_def]
    dsimp only
    rw [if_neg (by simp [hc.1, hc.2])]

theorem parseUnsignedNumber_digits (d : Char) (ds rest : List Char)
    (hd : isDigitChar d = true) (hds : ∀ c ∈ ds, isDigitChar c = true)
    (hrest : ∀ c t, rest = c :: t → isDigitChar c = false ∧ c ≠ '.' ∧ c ≠ 'e' ∧ c ≠ 'E') :
    (parseUnsignedNumber d (ds ++ rest)).map (fun p => (p.1, p.2.val)) =
      some (((ds.foldl (fun x c => x * 10 + (c.toNat - 48)) (d.toNat - 48) : ℕ) : ℚ), rest) := by
  obtain ⟨h1, h2, h3⟩ := parseDigitsCnt_spec ds (d.toNat - 48) 1 rest hds (by
    cases rest with
    | nil => trivial
    | cons r t => exact (hrest r t rfl).1)
  rw [parseUnsignedNumber]
  rcases hm : parseDigitsCnt (d.toNat - '0'.toNat) 1 (ds ++ rest) with ⟨ip, cnt, ⟨r1, hr1⟩⟩
  have h48 : '0'.toNat = 48 := rfl
  rw [h48] at hm
  rw [hm] at h1 h2 h3
  simp only at h1 h2 h3
  subst h1
  dsimp only
  rw [show parseFracPart r1 = (0, ⟨r1, Nat.le_refl _⟩) from
    parseFracPart_no_dot r1 (fun c t hct => (hrest c t (h3 ▸ hct)).2.1)]
  dsimp only
  rw [show parseExpPart r1 = some (0, ⟨r1, Nat.le_refl _⟩) from
    parseExpPart_no_e r1
      (fun c t hct => ⟨(hrest c t (h3 ▸ hct)).2.2.1, (hrest c t (h3 ▸ hct)).2.2.2⟩)]
  simp [h3]

theorem parseJsonNumber_natDigits (n : ℕ) (rest : List Char)
    (hrest : ∀ c t, rest = c :: t → isDigitChar c = false ∧ c ≠ '.' ∧ c ≠ 'e' ∧ c ≠ 'E') :
    (parseJsonNumber (natToDigits n ++ rest)).map (fun p => (p.1, p.2.val)) =
      some ((n : ℚ), rest) := by
  rcases hnd : natToDigits n with _ | ⟨d, ds⟩
  · exact absurd hnd (natToDigits_ne_nil n)
  have hd : isDigitChar d = true := natToDigits_all_digits n d (hnd ▸ List.mem_cons_self d ds)
  have hds : ∀ c ∈ ds, isDigitChar c = true := fun c hc =>
    natToDigits_all_digits n c (hnd ▸ List.mem_cons_of_mem d hc)
  have hdne : d ≠ '-' := char_ne_of_toNat_ne (by
    have h := isDigitChar_toNat hd
    have h45 : '-'.toNat = 45 := rfl
    omega)
  have hfold : ds.foldl (fun x c => x * 10 + (c.toNat - 48)) (d.toNat - 48) = n := by
    have hf := natToDigits_foldl n
    rw [hnd] at hf
    simpa using hf
  have hu := parseUnsignedNumber_digits d ds rest hd hds hrest
  simp only [parseJsonNumber.eq_def, List.cons_append]
  rw [if_neg hdne, if_pos hd]
  rcases hp : parseUnsignedNumber d (ds ++ rest) with _ | ⟨q, ⟨r9, hr9⟩⟩
  · rw [hp] at hu; simp at hu
  · rw [hp] at hu
    simp at hu
    obtain ⟨hq, hr⟩ := hu
    subst hr
    rw [hq, hfold]
    rfl

theorem skipWs_of_head {l : List Char} (h : ∀ c t, l = c :: t → jsonWsChar c = false) :
    skipWs l = l := by
  cases l with
  | nil => rfl
  | cons c t => simp [skipWs, List.dropWhile, h c t rfl]

theorem parseScalar_strLit (s : String) (rest : List Char) :
    (parseScalar (jsonStringLit s ++ rest)).map (fun p => (p.1, p.2.val)) =
      some (.str s, rest) := by
  have hsb := parseJsonStringBody_escape s.data rest
  rw [show jsonStringLit s ++ rest = '"' :: (s.data.flatMap jsonEscapeChar ++ '"' :: rest) from by
    simp [jsonStringLit]]
  rw [parseScalar.eq_def]
  try dsimp only
  rw [if_pos rfl]
  rcases hp : parseJsonStringBody (s.data.flatMap jsonEscapeChar ++ '"' :: rest) with _ | ⟨sx, ⟨r, hr⟩⟩
  · rw [hp] at hsb; simp at hsb
  · rw [hp] at hsb
    simp at hsb
    obtain ⟨hs, hr2⟩ := hsb
    subst hs; subst hr2
    rfl

theorem parseScalar_natDigits (n : ℕ) (rest : List Char)
    (hrest : ∀ c t, rest = c :: t → isDigitChar c = false ∧ c ≠ '.' ∧ c ≠ 'e' ∧ c ≠ 'E') :
    (parseScalar (natToDigits n ++ rest)).map (fun p => (p.1, p.2.val)) =
      some (.num (n : ℚ), rest) := by
  have hnum := parseJsonNumber_natDigits n rest hrest
  rcases hnd : natToDigits n with _ | ⟨d, ds⟩
  · exact absurd hnd (natToDigits_ne_nil n)
  rw [hnd] at hnum
  have hd : isDigitChar d = true := natToDigits_all_digits n d (hnd ▸ List.mem_cons_self d ds)
  have hdig := isDigitChar_toNat hd
  rw [List.cons_append, parseScalar.eq_def]
  try dsimp only
  rw [if_neg (char_ne_of_toNat_ne (by have : '"'.toNat = 34 := rfl; omega)),
    if_neg (by
      rintro ⟨hc, -⟩
      exact char_ne_of_toNat_ne (by have : 't'.toNat = 116 := rfl; omega) hc),
    if_neg (by
      rintro ⟨hc, -⟩
      exact char_ne_of_toNat_ne (by have : 'f'.toNat = 102 := rfl; omega) hc),
    if_neg (by
      rintro ⟨hc, -⟩
      exact char_ne_of_toNat_ne (by have : 'n'.toNat = 110 := rfl; omega) hc)]
  rw [List.cons_append] at hnum
  rcases hp : parseJsonNumber (d :: (ds ++ rest)) with _ | ⟨q, ⟨r, hr⟩⟩
  · rw [hp] at hnum; simp at hnum
  · rw [hp] at hnum
    simp at hnum
    obtain ⟨hq, hr2⟩ := hnum
    subst hq; subst hr2
    rfl

theorem parseMemberSeq_step_comma (k : String) (v : JsVal) (vchars more final : List Char)
    (fields : List (String × JsVal))
    (hvh : ∀ c t, vchars ++ ',' :: more = c :: t → jsonWsChar c = false)
    (hscalar : (parseScalar (vchars ++ ',' :: more)).map (fun p => (p.1, p.2.val)) =
      some (v, ',' :: more))
    (hrec : (parseMemberSeq more).map (fun p => (p.1, p.2.val)) = some (fields, final)) :
    (parseMemberSeq
        ('"' :: (k.data.flatMap jsonEscapeChar ++ '"' :: ':' :: (vchars ++ ',' :: more)))).map
      (fun p => (p.1, p.2.val)) = some ((k, v) :: fields, final) := by
  have hsw : skipWs ('"' :: (k.data.flatMap jsonEscapeChar ++ '"' :: ':' :: (vchars ++ ',' :: more))) =
      '"' :: (k.data.flatMap jsonEscapeChar ++ '"' :: ':' :: (vchars ++ ',' :: more)) :=
    skipWs_of_head (by rintro c t h; rw [List.cons.injEq] at h; rw [← h.1]; rfl)
  have hstr : (parseJsonStringBody
      (skipWs ('"' :: (k.data.flatMap jsonEscapeChar ++ '"' :: ':' :: (vchars ++ ',' :: more)))).tail).map
        (fun p => (p.1, p.2.val)) = some (k.data, ':' :: (vchars ++ ',' :: more)) := by
    rw [hsw, List.tail_cons]
    exact parseJsonStringBody_escape k.data (':' :: (vchars ++ ',' :: more))
  rw [parseMemberSeq.eq_def]
  rw [if_pos (by rw [hsw]; rfl)]
  rcases hp : parseJsonStringBody
      (skipWs ('"' :: (k.data.flatMap jsonEscapeChar ++ '"' :: ':' :: (vchars ++ ',' :: more)))).tail
    with _ | ⟨key, ⟨r1, hr1⟩⟩
  · rw [hp] at hstr; simp at hstr
  · rw [hp] at hstr
    simp at hstr
    obtain ⟨hk, hr⟩ := hstr
    subst hk
    subst hr
    have hsw2 : skipWs (':' :: (vchars ++ ',' :: more)) = ':' :: (vchars ++ ',' :: more) :=
      skipWs_of_head (by rintro c t h; rw [List.cons.injEq] at h; rw [← h.1]; rfl)
    dsimp only
    rw [if_pos (by rw [hsw2]; rfl)]
    have hscalar2 : (parseScalar (skipWs (skipWs (':' :: (vchars ++ ',' :: more))).tail)).map
        (fun p => (p.1, p.2.val)) = some (v, ',' :: more) := by
      rw [hsw2, List.tail_cons, skipWs_of_head hvh]
      exact hscalar
    rcases hs : parseScalar (skipWs (skipWs (':' :: (vchars ++ ',' :: more))).tail)
      with _ | ⟨vv, ⟨r4, hr4⟩⟩
    · rw [hs] at hscalar2; simp at hscalar2
    · rw [hs] at hscalar2
      simp at hscalar2
      obtain ⟨hv, hr4e⟩ := hscalar2
      subst hv
      subst hr4e
      have hsw3 : skipWs (',' :: more) = ',' :: more :=
        skipWs_of_head (by rintro c t h; rw [List.cons.injEq] at h; rw [← h.1]; rfl)
      dsimp only
      rw [if_pos (by rw [hsw3]; rfl)]
      have hrec2 : (parseMemberSeq (skipWs (',' :: more)).tail).map (fun p => (p.1, p.2.val)) =
          some (fields, final) := by
        rw [hsw3, List.tail_cons]
        exact hrec
      rcases hm : parseMemberSeq (skipWs (',' :: more)).tail with _ | ⟨flds, ⟨r7, hr7⟩⟩
      · rw [hm] at hrec2; simp at hrec2
      · rw [hm] at hrec2
        simp at hrec2
        obtain ⟨hf, hfin⟩ := hrec2
        subst hf
        subst hfin
        rfl

theorem parseMemberSeq_step_brace (k : String) (v : JsVal) (vchars final : List Char)
    (hvh : ∀ c t, vchars ++ '}' :: final = c :: t → jsonWsChar c = false)
    (hscalar : (parseScalar (vchars ++ '}' :: final)).map (fun p => (p.1, p.2.val)) =
      some (v, '}' :: final)) :
    (parseMemberSeq
        ('"' :: (k.data.flatMap jsonEscapeChar ++ '"' :: ':' :: (vchars ++ '}' :: final)))).map
      (fun p => (p.1, p.2.val)) = some ([(k, v)], final) := by
  have hsw : skipWs ('"' :: (k.data.flatMap jsonEscapeChar ++ '"' :: ':' :: (vchars ++ '}' :: final))) =
      '"' :: (k.data.flatMap jsonEscapeChar ++ '"' :: ':' :: (vchars ++ '}' :: final)) :=
    skipWs_of_head (by rintro c t h; rw [List.cons.injEq] at h; rw [← h.1]; rfl)
  have hstr : (parseJsonStringBody
      (skipWs ('"' :: (k.data.flatMap jsonEscapeChar ++ '"' :: ':' :: (vchars ++ '}' :: final)))).tail).map
        (fun p => (p.1, p.2.val)) = some (k.data, ':' :: (vchars ++ '}' :: final)) := by
    rw [hsw, List.tail_cons]
    exact parseJsonStringBody_escape k.data (':' :: (vchars ++ '}' :: final))
  rw [parseMemberSeq.eq_def]
  rw [if_pos (by rw [hsw]; rfl)]
  rcases hp : parseJsonStringBody
      (skipWs ('"' :: (k.data.flatMap jsonEscapeChar ++ '"' :: ':' :: (vchars ++ '}' :: final)))).tail
    with _ | ⟨key, ⟨r1, hr1⟩⟩
  · rw [hp] at hstr; simp at hstr
  · rw [hp] at hstr
    simp at hstr
    obtain ⟨hk, hr⟩ := hstr
    subst hk
    subst hr
    have hsw2 : skipWs (':' :: (vchars ++ '}' :: final)) = ':' :: (vchars ++ '}' :: final) :=
      skipWs_of_head (by rintro c t h; rw [List.cons.injEq] at h; rw [← h.1]; rfl)
    dsimp only
    rw [if_pos (by rw [hsw2]; rfl)]
    have hscalar2 : (parseScalar (skipWs (skipWs (':' :: (vchars ++ '}' :: final))).tail)).map
        (fun p => (p.1, p.2.val)) = some (v, '}' :: final) := by
      rw [hsw2, List.tail_cons, skipWs_of_head hvh]
      exact hscalar
    rcases hs : parseScalar (skipWs (skipWs (':' :: (vchars ++ '}' :: final))).tail)
      with _ | ⟨vv, ⟨r4, hr4⟩⟩
    · rw [hs] at hscalar2; simp at hscalar2
    · rw [hs] at hscalar2
      simp at hscalar2
      obtain ⟨hv, hr4e⟩ := hscalar2
      subst hv
      subst hr4e
      have hsw3 : skipWs ('}' :: final) = '}' :: final :=
        skipWs_of_head (by rintro c t h; rw [List.cons.injEq] at h; rw [← h.1]; rfl)
      dsimp only
      rw [if_neg (by rw [hsw3]; simp), if_pos (by rw [hsw3]; rfl)]
      simp [hsw3]


theorem jsonWsChar_eq_false {c : Char} (h32 : c.toNat ≠ 32) (h9 : c.toNat ≠ 9)
    (h10 : c.toNat ≠ 10) (h13 : c.toNat ≠ 13) : jsonWsChar c = false := by
  have hs : c ≠ ' ' := char_ne_of_toNat_ne (by have : ' '.toNat = 32 := rfl; omega)
  have ht : c ≠ '\t' := char_ne_of_toNat_ne (by have : '\t'.toNat = 9 := rfl; omega)
  have hn : c ≠ '\n' := char_ne_of_toNat_ne (by have : '\n'.toNat = 10 := rfl; omega)
  have hr : c ≠ '\r' := char_ne_of_toNat_ne (by have : '\r'.toNat = 13 := rfl; omega)
  simp [jsonWsChar, hs, ht, hn, hr]

theorem natToDigits_head_not_ws (n : ℕ) (rest : List Char) :
    ∀ c t, natToDigits n ++ rest = c :: t → jsonWsChar c = false := by
  intro c t h
  rcases hnd : natToDigits n with _ | ⟨d, ds⟩
  · exact absurd hnd (natToDigits_ne_nil n)
  · rw [hnd, List.cons_append, List.cons.injEq] at h
    have hd : isDigitChar d = true := natToDigits_all_digits n d (by
      rw [hnd]; exact List.mem_cons_self d ds)
    have hdig := isDigitChar_toNat hd
    rw [← h.1]
    exact jsonWsChar_eq_false (by omega) (by omega) (by omega) (by omega)

theorem strLit_head_not_ws (s : String) (rest : List Char) :
    ∀ c t, jsonStringLit s ++ rest = c :: t → jsonWsChar c = false := by
  intro c t h
  rw [show jsonStringLit s ++ rest = '"' :: (s.data.flatMap jsonEscapeChar ++ '"' :: rest) from by
    simp [jsonStringLit], List.cons.injEq] at h
  rw [← h.1]
  rfl

theorem sep_not_number_follow (c0 : Char) (h : c0 = ',' ∨ c0 = '}') (m : List Char) :
    ∀ c t, c0 :: m = c :: t → isDigitChar c = false ∧ c ≠ '.' ∧ c ≠ 'e' ∧ c ≠ 'E' := by
  rintro c t hct
  rw [List.cons.injEq] at hct
  rw [← hct.1]
  rcases h with h | h <;> rw [h]
  · exact ⟨rfl, by decide, by decide, by decide⟩
  · exact ⟨rfl, by decide, by decide, by decide⟩

theorem jsonParse_stringifyPayload (p : SessionTokenPayload) (ni ne : ℕ)
    (hi : p.iat = (ni : ℚ)) (he : p.exp = (ne : ℚ)) :
    jsonParse (String.mk (jsonStringifyPayload p)) = some (payloadToJsVal p) := by
  have hM4 : (parseMemberSeq
      ('"' :: ("exp".data.flatMap jsonEscapeChar ++ '"' :: ':' ::
        (natToDigits ne ++ '}' :: [])))).map
      (fun q => (q.1, q.2.val)) = some ([("exp", JsVal.num (ne : ℚ))], []) :=
    parseMemberSeq_step_brace "exp" (.num (ne : ℚ)) (natToDigits ne) []
      (natToDigits_head_not_ws ne _)
      (parseScalar_natDigits ne ('}' :: []) (sep_not_number_follow '}' (Or.inr rfl) []))
  have hM3 : (parseMemberSeq
      ('"' :: ("iat".data.flatMap jsonEscapeChar ++ '"' :: ':' ::
        (natToDigits ni ++ ',' ::
          ('"' :: ("exp".data.flatMap jsonEscapeChar ++ '"' :: ':' ::
            (natToDigits ne ++ '}' :: []))))))).map
      (fun q => (q.1, q.2.val)) =
      some ([("iat", JsVal.num (ni : ℚ)), ("exp", JsVal.num (ne : ℚ))], []) :=
    parseMemberSeq_step_comma "iat" (.num (ni : ℚ)) (natToDigits ni) _ []
      [("exp", JsVal.num (ne : ℚ))]
      (natToDigits_head_not_ws ni _)
      (parseScalar_natDigits ni _ (sep_not_number_follow ',' (Or.inl rfl) _))
      hM4
  have hM2 : (parseMemberSeq
      ('"' :: ("scope".data.flatMap jsonEscapeChar ++ '"' :: ':' ::
        (jsonStringLit p.scope ++ ',' ::
          ('"' :: ("iat".data.flatMap jsonEscapeChar ++ '"' :: ':' ::
            (natToDigits ni ++ ',' ::
              ('"' :: ("exp".data.flatMap jsonEscapeChar ++ '"' :: ':' ::
                (natToDigits ne ++ '}' :: [])))))))))).map
      (fun q => (q.1, q.2.val)) =
      some ([("scope", JsVal.str p.scope), ("iat", JsVal.num (ni : ℚ)),
        ("exp", JsVal.num (ne : ℚ))], []) :=
    parseMemberSeq_step_comma "scope" (.str p.scope) (jsonStringLit p.scope) _ []
      [("iat", JsVal.num (ni : ℚ)), ("exp", JsVal.num (ne : ℚ))]
      (strLit_head_not_ws p.scope _)
      (parseScalar_strLit p.scope _)
      hM3
  have hM1 : (parseMemberSeq
      ('"' :: ("jti".data.flatMap jsonEscapeChar ++ '"' :: ':' ::
        (jsonStringLit p.jti ++ ',' ::
          ('"' :: ("scope".data.flatMap jsonEscapeChar ++ '"' :: ':' ::
            (jsonStringLit p.scope ++ ',' ::
              ('"' :: ("iat".data.flatMap jsonEscapeChar ++ '"' :: ':' ::
                (natToDigits ni ++ ',' ::
                  ('"' :: ("exp".data.flatMap jsonEscapeChar ++ '"' :: ':' ::
                    (natToDigits ne ++ '}' :: []))))))))))))).map
      (fun q => (q.1, q.2.val)) =
      some ([("jti", JsVal.str p.jti), ("scope", JsVal.str p.scope),
        ("iat", JsVal.num (ni : ℚ)), ("exp", JsVal.num (ne : ℚ))], []) :=
    parseMemberSeq_step_comma "jti" (.str p.jti) (jsonStringLit p.jti) _ []
      [("scope", JsVal.str p.scope), ("iat", JsVal.num (ni : ℚ)),
        ("exp", JsVal.num (ne : ℚ))]
      (strLit_head_not_ws p.jti _)
      (parseScalar_strLit p.jti _)
      hM2
  rw [show ("jti".data.flatMap jsonEscapeChar) = ['j', 't', 'i'] from by decide,
    show ("scope".data.flatMap jsonEscapeChar) = ['s', 'c', 'o', 'p', 'e'] from by decide,
    show ("iat".data.flatMap jsonEscapeChar) = ['i', 'a', 't'] from by decide,
    show ("exp".data.flatMap jsonEscapeChar) = ['e', 'x', 'p'] from by decide] at hM1
  simp only [List.cons_append, List.nil_append] at hM1
  have hform : jsonStringifyPayload p =
      '{' :: '"' :: 'j' :: 't' :: 'i' :: '"' :: ':' ::
        (jsonStringLit p.jti ++ ',' ::
          ('"' :: 's' :: 'c' :: 'o' :: 'p' :: 'e' :: '"' :: ':' ::
            (jsonStringLit p.scope ++ ',' ::
              ('"' :: 'i' :: 'a' :: 't' :: '"' :: ':' ::
                (natToDigits ni ++ ',' ::
                  ('"' :: 'e' :: 'x' :: 'p' :: '"' :: ':' ::
                    (natToDigits ne ++ '}' :: []))))))) := by
    rw [jsonStringifyPayload, hi, he, jsNumToString_natCast, jsNumToString_natCast]
    rw [show ("\x7b\"jti\":".data : List Char) = ['{', '"', 'j', 't', 'i', '"', ':'] from rfl,
      show (",\"scope\":".data : List Char) =
        [',', '"', 's', 'c', 'o', 'p', 'e', '"', ':'] from rfl,
      show (",\"iat\":".data : List Char) = [',', '"', 'i', 'a', 't', '"', ':'] from rfl,
      show (",\"exp\":".data : List Char) = [',', '"', 'e', 'x', 'p', '"', ':'] from rfl,
      show ("\x7d".data : List Char) = ['}'] from rfl]
    simp only [List.cons_append, List.nil_append, List.append_assoc]
  have hsw0 : skipWs (String.mk (jsonStringifyPayload p)).data =
      '{' :: ('"' :: 'j' :: 't' :: 'i' :: '"' :: ':' ::
        (jsonStringLit p.jti ++ ',' ::
          ('"' :: 's' :: 'c' :: 'o' :: 'p' :: 'e' :: '"' :: ':' ::
            (jsonStringLit p.scope ++ ',' ::
              ('"' :: 'i' :: 'a' :: 't' :: '"' :: ':' ::
                (natToDigits ni ++ ',' ::
                  ('"' :: 'e' :: 'x' :: 'p' :: '"' :: ':' ::
                    (natToDigits ne ++ '}' :: [])))))))) := by
    rw [show (String.mk (jsonStringifyPayload p)).data = jsonStringifyPayload p from rfl, hform]
    exact skipWs_of_head (by rintro c t h; rw [List.cons.injEq] at h; rw [← h.1]; rfl)
  rw [jsonParse]
  rw [if_pos (by rw [hsw0]; rfl)]
  have hflat : (parseMembersFlat (skipWs (String.mk (jsonStringifyPayload p)).data).tail).map
      (fun q => (q.1, q.2.val)) =
      some ([("jti", JsVal.str p.jti), ("scope", JsVal.str p.scope),
        ("iat", JsVal.num (ni : ℚ)), ("exp", JsVal.num (ne : ℚ))], []) := by
    rw [hsw0, List.tail_cons]
    rw [parseMembersFlat]
    rw [if_neg (by
      rw [skipWs_of_head (by rintro c t h; rw [List.cons.injEq] at h; rw [← h.1]; rfl)]
      simp)]
    exact hM1
  rcases hpf : parseMembersFlat (skipWs (String.mk (jsonStringifyPayload p)).data).tail
    with _ | ⟨flds, ⟨r, hr⟩⟩
  · rw [hpf] at hflat; simp at hflat
  · rw [hpf] at hflat
    simp at hflat
    obtain ⟨hf, hfin⟩ := hflat
    subst hf
    subst hfin
    simp [payloadToJsVal, hi, he]
    rfl


theorem sha256_bytes_lt (msg : List Nat) : ∀ b ∈ sha256 msg, b < 256 := by
  intro b hb
  unfold sha256 sha256Out at hb
  simp only [List.mem_flatMap, List.mem_cons, List.not_mem_nil, or_false] at hb
  rcases hb with ⟨x, hx, hb⟩
  rcases hb with h | h | h | h <;> subst h <;> exact Nat.mod_lt _ (by norm_num)

theorem hmacSha256_bytes_lt (key msg : List Nat) : ∀ b ∈ hmacSha256 key msg, b < 256 := by
  intro b hb
  exact sha256_bytes_lt _ b hb

theorem dot_not_mem_hmacSha256Base64url (secret msg : List Char) :
    '.' ∉ hmacSha256Base64url secret msg := by
  unfold hmacSha256Base64url
  exact dot_not_mem_base64urlEncodeList (hmacSha256_bytes_lt _ _)

theorem dot_not_mem_encodedPayloadOf (p : SessionTokenPayload) :
    '.' ∉ encodedPayloadOf p := by
  unfold encodedPayloadOf
  exact dot_not_mem_base64urlEncodeList (utf8Encode_lt _)

theorem dot_not_mem_encodedHeaderConst : '.' ∉ encodedHeaderConst := by
  unfold encodedHeaderConst
  exact dot_not_mem_base64urlEncodeList (utf8Encode_lt _)

theorem verifyCore_canonical (hdr : List Char) (p : SessionTokenPayload) (ni ne : ℕ)
    (nowMs : Nat) (req : Option ScopeReq) (secret : String)
    (hhdr : '.' ∉ hdr) (hi : p.iat = (ni : ℚ)) (he : p.exp = (ne : ℚ)) :
    verifySessionTokenCore
      (hdr ++ '.' :: (encodedPayloadOf p ++ '.' ::
        hmacSha256Base64url secret.data (hdr ++ '.' :: encodedPayloadOf p)))
      nowMs req secret =
      match assertValidPayload (payloadToJsVal p) nowMs req with
      | some e => .error e
      | none => .ok (payloadToJsVal p) := by
  have hsplit : splitOnChar '.' (hdr ++ '.' :: (encodedPayloadOf p ++ '.' ::
      hmacSha256Base64url secret.data (hdr ++ '.' :: encodedPayloadOf p))) =
      [hdr, encodedPayloadOf p,
        hmacSha256Base64url secret.data (hdr ++ '.' :: encodedPayloadOf p)] := by
    rw [splitOnChar_append _ hhdr, splitOnChar_append _ (dot_not_mem_encodedPayloadOf p),
      splitOnChar_not_mem (dot_not_mem_hmacSha256Base64url _ _)]
  rw [verifySessionTokenCore]
  rw [if_neg (by simp)]
  rw [hsplit]
  try dsimp only
  rw [if_neg (fun h => h rfl)]
  have hjp : jsonParse (String.mk (utf8DecodeList (bufferBase64Decode (encodedPayloadOf p)))) =
      some (payloadToJsVal p) := by
    rw [show bufferBase64Decode (encodedPayloadOf p) = utf8Encode (jsonStringifyPayload p) from by
        unfold encodedPayloadOf; exact bufferBase64Decode_encode (utf8Encode_lt _),
      utf8DecodeList_encode]
    exact jsonParse_stringifyPayload p ni ne hi he
  rw [hjp]

theorem jsGetField_payload_exp (p : SessionTokenPayload) :
    jsGetField (payloadToJsVal p) "exp" = some (.num p.exp) := rfl

theorem jsGetField_payload_scope (p : SessionTokenPayload) :
    jsGetField (payloadToJsVal p) "scope" = some (.str p.scope) := rfl

theorem isSessionTokenExpired_payload (p : SessionTokenPayload) (nowMs : Nat) :
    isSessionTokenExpired (payloadToJsVal p) nowMs = decide (p.exp * 1000 ≤ (nowMs : ℚ)) := rfl

theorem assertValidPayload_canonical (p : SessionTokenPayload) (nowMs : Nat)
    (req : Option ScopeReq) (hexp : p.exp ≠ 0) (hscope : p.scope ≠ "") :
    assertValidPayload (payloadToJsVal p) nowMs req =
      if p.exp * 1000 ≤ (nowMs : ℚ) then some (.tokenExpired "Session token expired")
      else if scopeReqTruthy req then
        (if p.scope ∈ scopeReqList (req.getD (.single "")) then none
         else some (.tokenInvalid "Token scope is not permitted"))
      else none := by
  rw [assertValidPayload]
  rw [if_neg (by simp [payloadToJsVal, jsTruthy, isObjectTyped])]
  rw [if_neg (by
    rw [jsGetField_payload_exp, jsGetField_payload_scope]
    simp [jsTruthy, hexp, hscope])]
  rw [isSessionTokenExpired_payload]
  by_cases hle : p.exp * 1000 ≤ (nowMs : ℚ)
  · rw [if_pos (by simp [hle]), if_pos hle]
  · rw [if_neg (by simp [hle]), if_neg hle]
    by_cases hrq : scopeReqTruthy req = true
    · rw [if_pos hrq, if_pos hrq, jsGetField_payload_scope]
    · rw [if_neg hrq, if_neg hrq]

theorem assertValidPayload_none (p : SessionTokenPayload) (nowMs : Nat)
    (req : Option ScopeReq) (hexp : p.exp ≠ 0) (hscope : p.scope ≠ "")
    (hnot : ¬ (p.exp * 1000 ≤ (nowMs : ℚ)))
    (hreq : scopeReqTruthy req = true → p.scope ∈ scopeReqList (req.getD (.single ""))) :
    assertValidPayload (payloadToJsVal p) nowMs req = none := by
  rw [assertValidPayload_canonical p nowMs req hexp hscope, if_neg hnot]
  by_cases hrq : scopeReqTruthy req = true
  · rw [if_pos hrq, if_pos (hreq hrq)]
  · rw [if_neg hrq]

theorem assertValidPayload_expired (p : SessionTokenPayload) (nowMs : Nat)
    (req : Option ScopeReq) (hexp : p.exp ≠ 0) (hscope : p.scope ≠ "")
    (hle : p.exp * 1000 ≤ (nowMs : ℚ)) :
    assertValidPayload (payloadToJsVal p) nowMs req =
      some (.tokenExpired "Session token expired") := by
  rw [assertValidPayload_canonical p nowMs req hexp hscope, if_pos hle]

theorem assertValidPayload_scope_denied (p : SessionTokenPayload) (nowMs : Nat)
    (req : Option ScopeReq) (hexp : p.exp ≠ 0) (hscope : p.scope ≠ "")
    (hnot : ¬ (p.exp * 1000 ≤ (nowMs : ℚ))) (hrq : scopeReqTruthy req = true)
    (hmem : p.scope ∉ scopeReqList (req.getD (.single ""))) :
    assertValidPayload (payloadToJsVal p) nowMs req =
      some (.tokenInvalid "Token scope is not permitted") := by
  rw [assertValidPayload_canonical p nowMs req hexp hscope, if_neg hnot, if_pos hrq,
    if_neg hmem]

theorem signPayloadChars_assoc (p : SessionTokenPayload) (secret : String) :
    signPayloadChars p secret =
      encodedHeaderConst ++ '.' :: (encodedPayloadOf p ++ '.' ::
        hmacSha256Base64url secret.data (encodedHeaderConst ++ '.' :: encodedPayloadOf p)) := by
  rw [signPayloadChars]
  simp [List.append_assoc]

theorem verify_signPayload_assert (p : SessionTokenPayload) (ni ne : ℕ) (nowMs : Nat)
    (req : Option ScopeReq) (secret : String)
    (hi : p.iat = (ni : ℚ)) (he : p.exp = (ne : ℚ)) :
    verifySessionToken (signPayload p secret) nowMs req secret =
      match assertValidPayload (payloadToJsVal p) nowMs req with
      | some e => .error e
      | none => .ok (payloadToJsVal p) := by
  rw [verifySessionToken]
  rw [show (signPayload p secret).data = signPayloadChars p secret from rfl]
  rw [signPayloadChars_assoc]
  exact verifyCore_canonical _ p ni ne nowMs req secret dot_not_mem_encodedHeaderConst hi he

theorem verifyCore_format_invalid (token : List Char) (nowMs : Nat) (req : Option ScopeReq)
    (secret : String) (hne : token ≠ [])
    (hlen : (splitOnChar '.' token).length ≠ 3) :
    verifySessionTokenCore token nowMs req secret =
      .error (.tokenInvalid "Token format is invalid") := by
  rw [verifySessionTokenCore, if_neg hne]
  rcases hs : splitOnChar '.' token with _ | ⟨a, _ | ⟨b, _ | ⟨c, _ | ⟨d, t⟩⟩⟩⟩
  · rfl
  · rfl
  · rfl
  · rw [hs] at hlen; simp at hlen
  · rfl

theorem verifyCore_sig_mismatch (A B C : List Char) (nowMs : Nat) (req : Option ScopeReq)
    (secret : String) (hA : '.' ∉ A) (hB : '.' ∉ B) (hC : '.' ∉ C)
    (hne : C ≠ hmacSha256Base64url secret.data (A ++ '.' :: B)) :
    verifySessionTokenCore (A ++ '.' :: (B ++ '.' :: C)) nowMs req secret =
      .error (.tokenInvalid "Token signature mismatch") := by
  rw [verifySessionTokenCore, if_neg (by simp)]
  rw [show splitOnChar '.' (A ++ '.' :: (B ++ '.' :: C)) = [A, B, C] from by
    rw [splitOnChar_append _ hA, splitOnChar_append _ hB, splitOnChar_not_mem hC]]
  try dsimp only
  rw [if_pos hne]

theorem toISOStringQ_isSome {q : ℚ} (h : |q| ≤ 8640000000000000) :
    ∃ s, toISOStringQ q = some s := by
  rw [toISOStringQ, if_neg (not_lt.mpr h)]
  exact ⟨_, rfl⟩

/-! ### C1 -/

/-- C1: the claim says `timingSafeCompare` consults every byte of both
operands even for length-mismatched pairs.  It does not: on the pair
`("a", "bb")` the function returns after zero comparison-loop iterations
although the operands have two code units between them. -/
theorem c1_counterexample :
    timingSafeCompareInstr "a" "bb" = (false, 0) ∧
    0 < max (utf16Units "a").length (utf16Units "bb").length := by
  decide

/-- C1 (amended): for operands of equal UTF-16 length the comparison loop
runs over every code unit (iteration count = length) and the boolean result
is exactly code-unit equality; the iteration count is a function of the two
lengths alone, so the running time is independent of where the operands
first differ; but on a length mismatch the function returns false
immediately, after zero loop iterations.  The instrumented function returns
the same boolean as `timingSafeCompare`. -/
theorem c1_timingSafeCompare_timing (a b : String) :
    (timingSafeCompare a b = (timingSafeCompareInstr a b).1) ∧
    ((utf16Units a).length = (utf16Units b).length →
      (timingSafeCompareInstr a b).2 = (utf16Units a).length ∧
      ((timingSafeCompareInstr a b).1 = true ↔ utf16Units a = utf16Units b)) ∧
    ((utf16Units a).length ≠ (utf16Units b).length → timingSafeCompareInstr a b = (false, 0)) ∧
    (∀ a' b' : String, (utf16Units a').length = (utf16Units a).length →
      (utf16Units b').length = (utf16Units b).length →
      (timingSafeCompareInstr a' b').2 = (timingSafeCompareInstr a b).2) := by
  refine ⟨?_, ?_, ?_, ?_⟩
  · by_cases h : (utf16Units a).length = (utf16Units b).length <;>
      simp [timingSafeCompare, timingSafeCompareInstr, h]
  · intro h
    constructor
    · simp [timingSafeCompareInstr, h, compareLoopInstr_steps]
    · simp only [timingSafeCompareInstr, if_neg (by simp [h] : ¬ (utf16Units a).length ≠ (utf16Units b).length)]
      rw [beq_iff_eq, compareLoopInstr_result _ _ _ h]
      tauto
  · intro h
    simp [timingSafeCompareInstr, h]
  · intro a' b' ha hb
    by_cases h : (utf16Units a).length = (utf16Units b).length <;>
      simp [timingSafeCompareInstr, h, ha, hb, compareLoopInstr_steps, ha.trans, h, if_pos, if_neg]

/-- C1 witness: the amended theorem applied to the equal-length pair
`("abc", "abd")`: the loop runs three iterations and reports inequality. -/
theorem c1_witness :
    (timingSafeCompareInstr "abc" "abd").2 = (utf16Units "abc").length ∧
    ((timingSafeCompareInstr "abc" "abd").1 = true ↔ utf16Units "abc" = utf16Units "abd") :=
  (c1_timingSafeCompare_timing "abc" "abd").2.1 (by decide)

/-! ### C2 -/

/-- C2: for every non-empty scope and every integer ttlSeconds in [1, 300],
verifying the token returned by `createSessionToken` at the same clock and
secret succeeds and returns the canonical payload, whose `scope` field is the
given scope and whose `exp` field is the creation time in seconds plus
ttlSeconds. -/
theorem c2_create_verify_roundtrip (scope : String) (t : ℕ) (nowMs : Nat) (secret jti : String)
    (hscope : jsTrim scope ≠ "") (ht1 : 1 ≤ t) (ht2 : t ≤ 300)
    (hnow : nowMs ≤ 8639999999700000) :
    ∃ r : CreateSessionTokenResult,
      createSessionToken scope (some (t : ℚ)) nowMs secret jti = .ok r ∧
      verifySessionToken r.token nowMs (some (.single scope)) secret =
        .ok (payloadToJsVal (sessionPayloadFor scope (t : ℚ) nowMs jti)) ∧
      jsGetField (payloadToJsVal (sessionPayloadFor scope (t : ℚ) nowMs jti)) "scope" =
        some (.str scope) ∧
      jsGetField (payloadToJsVal (sessionPayloadFor scope (t : ℚ) nowMs jti)) "exp" =
        some (.num (((nowMs / 1000 : ℕ) : ℚ) + (t : ℚ))) := by
  have hs0 : scope ≠ "" := fun h => hscope (by rw [h]; rfl)
  have hmin : min (t : ℚ) 300 = (t : ℚ) := min_eq_left (by exact_mod_cast ht2)
  have hexp_eq : (sessionPayloadFor scope (t : ℚ) nowMs jti).exp =
      ((nowMs / 1000 + t : ℕ) : ℚ) := by
    show ((nowMs / 1000 : ℕ) : ℚ) + min (t : ℚ) 300 = _
    rw [hmin]
    push_cast
    ring
  have hiat_eq : (sessionPayloadFor scope (t : ℚ) nowMs jti).iat =
      ((nowMs / 1000 : ℕ) : ℚ) := rfl
  have hnd : nowMs / 1000 + t ≤ 8640000000000 := by omega
  obtain ⟨iso, hiso⟩ := toISOStringQ_isSome
    (q := (sessionPayloadFor scope (t : ℚ) nowMs jti).exp * 1000) (by
      rw [hexp_eq]
      rw [abs_of_nonneg (by positivity)]
      have : ((nowMs / 1000 + t : ℕ) : ℚ) ≤ 8640000000000 := by exact_mod_cast hnd
      nlinarith)
  have hnotexp : ¬ ((sessionPayloadFor scope (t : ℚ) nowMs jti).exp * 1000 ≤ (nowMs : ℚ)) := by
    rw [hexp_eq]
    intro hcon
    have : (nowMs / 1000 + t) * 1000 ≤ nowMs := by exact_mod_cast hcon
    omega
  refine ⟨⟨signPayload (sessionPayloadFor scope (t : ℚ) nowMs jti) secret, scope, iso⟩,
    ?_, ?_, rfl, ?_⟩
  · simp only [createSessionToken, Option.getD_some]
    rw [if_neg hscope, if_neg (by
      intro hcon
      have : (t : ℚ) > 0 := by exact_mod_cast ht1
      linarith)]
    rw [hiso]
  · rw [verify_signPayload_assert (sessionPayloadFor scope (t : ℚ) nowMs jti)
      (nowMs / 1000) (nowMs / 1000 + t) nowMs (some (.single scope)) secret hiat_eq hexp_eq]
    rw [assertValidPayload_none (sessionPayloadFor scope (t : ℚ) nowMs jti) nowMs
      (some (.single scope))
      (by rw [hexp_eq]; exact_mod_cast (by omega : nowMs / 1000 + t ≠ 0))
      hs0 hnotexp
      (fun _ => by simp [scopeReqList, sessionPayloadFor])]
  · rw [jsGetField_payload_exp]
    show some (JsVal.num (((nowMs / 1000 : ℕ) : ℚ) + min (t : ℚ) 300)) = _
    rw [hmin]

theorem c2_witness : ∃ r : CreateSessionTokenResult,
    createSessionToken "practice" (some ((60 : ℕ) : ℚ)) 0 "secret" "jti" = .ok r ∧
    verifySessionToken r.token 0 (some (.single "practice")) "secret" =
      .ok (payloadToJsVal (sessionPayloadFor "practice" ((60 : ℕ) : ℚ) 0 "jti")) ∧
    jsGetField (payloadToJsVal (sessionPayloadFor "practice" ((60 : ℕ) : ℚ) 0 "jti")) "scope" =
      some (.str "practice") ∧
    jsGetField (payloadToJsVal (sessionPayloadFor "practice" ((60 : ℕ) : ℚ) 0 "jti")) "exp" =
      some (.num (((0 / 1000 : ℕ) : ℚ) + ((60 : ℕ) : ℚ))) :=
  c2_create_verify_roundtrip "practice" 60 0 "secret" "jti" (by decide) (by decide)
    (by decide) (by decide)

/-! ### C3 -/

/-- C3: for a validly signed canonical payload with nonzero `exp` and
non-empty `scope`, verification fails with the expired error exactly when
`exp * 1000 ≤ now`; at `now = exp * 1000` it fails expired, and at
`now = exp * 1000 - 1` it does not fail expired. -/
theorem c3_expiry_boundary (p : SessionTokenPayload) (ni ne : ℕ) (secret : String)
    (req : Option ScopeReq)
    (hi : p.iat = (ni : ℚ)) (he : p.exp = (ne : ℚ)) (hne : 1 ≤ ne) (hscope : p.scope ≠ "") :
    (∀ nowMs : Nat,
      verifySessionToken (signPayload p secret) nowMs req secret =
        .error (.tokenExpired "Session token expired") ↔ p.exp * 1000 ≤ (nowMs : ℚ)) ∧
    verifySessionToken (signPayload p secret) (ne * 1000) req secret =
      .error (.tokenExpired "Session token expired") ∧
    ∀ m, verifySessionToken (signPayload p secret) (ne * 1000 - 1) req secret ≠
      .error (.tokenExpired m) := by
  have hexp0 : p.exp ≠ 0 := by
    rw [he]
    exact_mod_cast (by omega : ne ≠ 0)
  have hmain : ∀ nowMs : Nat,
      verifySessionToken (signPayload p secret) nowMs req secret =
        .error (.tokenExpired "Session token expired") ↔ p.exp * 1000 ≤ (nowMs : ℚ) := by
    intro nowMs
    rw [verify_signPayload_assert p ni ne nowMs req secret hi he]
    by_cases hle : p.exp * 1000 ≤ (nowMs : ℚ)
    · rw [assertValidPayload_expired p nowMs req hexp0 hscope hle]
      simp [hle]
    · rw [assertValidPayload_canonical p nowMs req hexp0 hscope, if_neg hle]
      simp only [hle, iff_false]
      by_cases hrq : scopeReqTruthy req = true
      · rw [if_pos hrq]
        by_cases hmem : p.scope ∈ scopeReqList (req.getD (.single ""))
        · rw [if_pos hmem]
          simp
        · rw [if_neg hmem]
          simp
      · rw [if_neg hrq]
        simp
  refine ⟨hmain, (hmain (ne * 1000)).mpr (by rw [he]; push_cast; linarith), ?_⟩
  intro m hcon
  have hnle : ¬ (p.exp * 1000 ≤ ((ne * 1000 - 1 : ℕ) : ℚ)) := by
    rw [he]
    intro h
    have : ne * 1000 ≤ ne * 1000 - 1 := by exact_mod_cast h
    omega
  rw [verify_signPayload_assert p ni ne (ne * 1000 - 1) req secret hi he,
    assertValidPayload_canonical p (ne * 1000 - 1) req hexp0 hscope, if_neg hnle] at hcon
  by_cases hrq : scopeReqTruthy req = true
  · rw [if_pos hrq] at hcon
    by_cases hmem : p.scope ∈ scopeReqList (req.getD (.single ""))
    · rw [if_pos hmem] at hcon
      simp at hcon
    · rw [if_neg hmem] at hcon
      simp at hcon
  · rw [if_neg hrq] at hcon
    simp at hcon

theorem c3_witness :
    (∀ nowMs : Nat,
      verifySessionToken (signPayload ⟨"jti", "practice", ((0 : ℕ) : ℚ), ((1 : ℕ) : ℚ)⟩ "secret")
          nowMs none "secret" =
        .error (.tokenExpired "Session token expired") ↔
        (⟨"jti", "practice", ((0 : ℕ) : ℚ), ((1 : ℕ) : ℚ)⟩ : SessionTokenPayload).exp * 1000 ≤
          (nowMs : ℚ)) ∧
    verifySessionToken (signPayload ⟨"jti", "practice", ((0 : ℕ) : ℚ), ((1 : ℕ) : ℚ)⟩ "secret")
        (1 * 1000) none "secret" =
      .error (.tokenExpired "Session token expired") ∧
    ∀ m, verifySessionToken
        (signPayload ⟨"jti", "practice", ((0 : ℕ) : ℚ), ((1 : ℕ) : ℚ)⟩ "secret")
        (1 * 1000 - 1) none "secret" ≠ .error (.tokenExpired m) :=
  c3_expiry_boundary ⟨"jti", "practice", ((0 : ℕ) : ℚ), ((1 : ℕ) : ℚ)⟩ 0 1 "secret" none
    (by norm_num) (by norm_num) (by decide) (by decide)

/-! ### C4 -/

/-- C4: every successful `createSessionToken` signs a payload with
`iat < exp` and `exp - iat ≤ 300`, whatever ttl was requested; and a request
of 1000 seconds succeeds with a lifetime of exactly 300 seconds. -/
theorem c4_lifetime_invariant :
    (∀ (scope : String) (ttlSeconds : Option ℚ) (nowMs : Nat) (secret jti : String)
      (r : CreateSessionTokenResult),
      createSessionToken scope ttlSeconds nowMs secret jti = .ok r →
      r.token = signPayload
        (sessionPayloadFor scope (ttlSeconds.getD DEFAULT_TTL_SECONDS) nowMs jti) secret ∧
      (sessionPayloadFor scope (ttlSeconds.getD DEFAULT_TTL_SECONDS) nowMs jti).iat <
        (sessionPayloadFor scope (ttlSeconds.getD DEFAULT_TTL_SECONDS) nowMs jti).exp ∧
      (sessionPayloadFor scope (ttlSeconds.getD DEFAULT_TTL_SECONDS) nowMs jti).exp -
        (sessionPayloadFor scope (ttlSeconds.getD DEFAULT_TTL_SECONDS) nowMs jti).iat ≤ 300) ∧
    (∀ (scope : String) (nowMs : Nat) (secret jti : String),
      jsTrim scope ≠ "" → nowMs ≤ 8639999999700000 →
      ∃ r, createSessionToken scope (some 1000) nowMs secret jti = .ok r ∧
        (sessionPayloadFor scope ((some (1000 : ℚ)).getD DEFAULT_TTL_SECONDS) nowMs jti).exp -
          (sessionPayloadFor scope ((some (1000 : ℚ)).getD DEFAULT_TTL_SECONDS) nowMs jti).iat
          = 300) := by
  constructor
  · intro scope ttlSeconds nowMs secret jti r h
    simp only [createSessionToken] at h
    by_cases h1 : jsTrim scope = ""
    · rw [if_pos h1] at h
      exact absurd h (by simp)
    · rw [if_neg h1] at h
      by_cases h2 : ttlSeconds.getD DEFAULT_TTL_SECONDS ≤ 0
      · rw [if_pos h2] at h
        exact absurd h (by simp)
      · rw [if_neg h2] at h
        have hdiff : (sessionPayloadFor scope (ttlSeconds.getD DEFAULT_TTL_SECONDS) nowMs jti).exp -
            (sessionPayloadFor scope (ttlSeconds.getD DEFAULT_TTL_SECONDS) nowMs jti).iat =
            min (ttlSeconds.getD DEFAULT_TTL_SECONDS) MAX_TTL_SECONDS := by
          simp [sessionPayloadFor]
        rcases hiso : toISOStringQ
            ((sessionPayloadFor scope (ttlSeconds.getD DEFAULT_TTL_SECONDS) nowMs jti).exp * 1000)
          with _ | iso
        · rw [hiso] at h
          exact absurd h (by simp)
        · rw [hiso] at h
          simp at h
          refine ⟨?_, ?_, ?_⟩
          · rw [← h]
          · have : 0 < min (ttlSeconds.getD DEFAULT_TTL_SECONDS) MAX_TTL_SECONDS :=
              lt_min (lt_of_not_le h2) (by norm_num [MAX_TTL_SECONDS])
            linarith [hdiff, this]
          · rw [hdiff]
            exact le_trans (min_le_right _ _) (by norm_num [MAX_TTL_SECONDS])
  · intro scope nowMs secret jti hscope hnow
    have hexp_eq : (sessionPayloadFor scope ((some (1000 : ℚ)).getD DEFAULT_TTL_SECONDS)
        nowMs jti).exp = ((nowMs / 1000 : ℕ) : ℚ) + 300 := by
      show ((nowMs / 1000 : ℕ) : ℚ) + min ((some (1000 : ℚ)).getD DEFAULT_TTL_SECONDS) 300 = _
      norm_num [Option.getD]
    obtain ⟨iso, hiso⟩ := toISOStringQ_isSome
      (q := (sessionPayloadFor scope ((some (1000 : ℚ)).getD DEFAULT_TTL_SECONDS)
        nowMs jti).exp * 1000) (by
        rw [hexp_eq]
        rw [abs_of_nonneg (by positivity)]
        have hnd : (nowMs / 1000 : ℕ) ≤ 8639999999700 := by omega
        have : ((nowMs / 1000 : ℕ) : ℚ) ≤ 8639999999700 := by exact_mod_cast hnd
        nlinarith)
    refine ⟨⟨signPayload (sessionPayloadFor scope ((some (1000 : ℚ)).getD DEFAULT_TTL_SECONDS)
        nowMs jti) secret, scope, iso⟩, ?_, ?_⟩
    · simp only [createSessionToken]
      rw [if_neg hscope, if_neg (by norm_num [Option.getD])]
      rw [hiso]
    · rw [hexp_eq]
      show _ - ((nowMs / 1000 : ℕ) : ℚ) = 300
      ring

theorem c4_witness :
    ∃ r, createSessionToken "practice" (some 1000) 0 "secret" "jti" = .ok r ∧
      ((sessionPayloadFor "practice" ((some (1000 : ℚ)).getD DEFAULT_TTL_SECONDS) 0 "jti").exp -
        (sessionPayloadFor "practice" ((some (1000 : ℚ)).getD DEFAULT_TTL_SECONDS) 0 "jti").iat
        = 300) ∧
      (sessionPayloadFor "practice" ((some (1000 : ℚ)).getD DEFAULT_TTL_SECONDS) 0 "jti").iat <
        (sessionPayloadFor "practice" ((some (1000 : ℚ)).getD DEFAULT_TTL_SECONDS) 0 "jti").exp := by
  obtain ⟨r, hr, hd⟩ := c4_lifetime_invariant.2 "practice" 0 "secret" "jti" (by decide) (by decide)
  exact ⟨r, hr, hd,
    (c4_lifetime_invariant.1 "practice" (some 1000) 0 "secret" "jti" r hr).2.1⟩

/-! ### C5 -/

/-- C5 counterexample: `createSessionToken` accepts the ttl 1.5, which is
positive but not an integer (the code only checks `ttlSeconds <= 0`), so
"must be a positive integer, else fails with InvalidToken" does not hold of
the code. -/
theorem c5_counterexample :
    (∃ r, createSessionToken "practice" (some (3 / 2 : ℚ)) 0 "secret" "jti" = .ok r) ∧
    0 < (3 / 2 : ℚ) ∧ ¬ ∃ n : ℤ, (3 / 2 : ℚ) = (n : ℚ) := by
  refine ⟨?_, by norm_num, ?_⟩
  · have hexp : (sessionPayloadFor "practice" ((some (3 / 2 : ℚ)).getD DEFAULT_TTL_SECONDS)
        0 "jti").exp * 1000 = 1500 := by
      show (((0 / 1000 : ℕ) : ℚ) +
        min ((some (3 / 2 : ℚ)).getD DEFAULT_TTL_SECONDS) 300) * 1000 = 1500
      rw [show (some (3 / 2 : ℚ)).getD DEFAULT_TTL_SECONDS = 3 / 2 from rfl]
      rw [min_eq_left (by norm_num)]
      norm_num
    obtain ⟨iso, hiso⟩ := toISOStringQ_isSome
      (q := (sessionPayloadFor "practice" ((some (3 / 2 : ℚ)).getD DEFAULT_TTL_SECONDS)
        0 "jti").exp * 1000) (by
        rw [hexp, abs_of_nonneg (by norm_num)]
        norm_num)
    refine ⟨⟨signPayload (sessionPayloadFor "practice"
        ((some (3 / 2 : ℚ)).getD DEFAULT_TTL_SECONDS) 0 "jti") "secret", "practice", iso⟩, ?_⟩
    simp only [createSessionToken]
    rw [if_neg (by decide), if_neg (by norm_num [Option.getD])]
    rw [hiso]
  · rintro ⟨n, hn⟩
    have h3 : (3 : ℚ) = 2 * (n : ℚ) := by linarith
    have h4 : (3 : ℤ) = 2 * n := by exact_mod_cast h3
    omega

/-- C5 (amended): the code's actual ttl guard rejects only `ttlSeconds ≤ 0`
(with InvalidToken), and an omitted ttl behaves exactly like an explicit 60
seconds. -/
theorem c5_ttl_guard :
    (∀ (scope : String) (ttl : ℚ) (nowMs : Nat) (secret jti : String),
      jsTrim scope ≠ "" → ttl ≤ 0 →
      createSessionToken scope (some ttl) nowMs secret jti =
        .error (.tokenInvalid "TTL must be greater than 0")) ∧
    (∀ (scope : String) (nowMs : Nat) (secret jti : String),
      createSessionToken scope none nowMs secret jti =
        createSessionToken scope (some 60) nowMs secret jti) := by
  constructor
  · intro scope ttl nowMs secret jti hscope httl
    simp only [createSessionToken, Option.getD_some]
    rw [if_neg hscope, if_pos httl]
  · intro scope nowMs secret jti
    simp only [createSessionToken, Option.getD_none, Option.getD_some, DEFAULT_TTL_SECONDS]

theorem c5_witness :
    createSessionToken "practice" (some (0 : ℚ)) 0 "secret" "jti" =
      .error (.tokenInvalid "TTL must be greater than 0") ∧
    createSessionToken "practice" none 0 "secret" "jti" =
      createSessionToken "practice" (some 60) 0 "secret" "jti" :=
  ⟨c5_ttl_guard.1 "practice" 0 0 "secret" "jti" (by decide) (by norm_num),
    c5_ttl_guard.2 "practice" 0 "secret" "jti"⟩

/-! ### C6 -/

theorem eqsign_not_mem_hmacSha256Base64url (secret msg : List Char) :
    '=' ∉ hmacSha256Base64url secret msg := by
  unfold hmacSha256Base64url
  exact eqsign_not_mem_base64urlEncodeList (hmacSha256_bytes_lt _ _)

/-- C6 counterexample: the code checks only that the token splits into three
segments, not that they are non-empty; a token whose header segment is empty
but whose signature is valid is accepted, so "never succeeds" fails. -/
theorem c6_counterexample :
    (splitOnChar '.'
      ([] ++ '.' :: (encodedPayloadOf ⟨"jti0", "practice", ((0 : ℕ) : ℚ), ((1 : ℕ) : ℚ)⟩ ++ '.' ::
        hmacSha256Base64url "secret".data
          ([] ++ '.' :: encodedPayloadOf
            ⟨"jti0", "practice", ((0 : ℕ) : ℚ), ((1 : ℕ) : ℚ)⟩)))).headD ['x'] = [] ∧
    verifySessionTokenCore
      ([] ++ '.' :: (encodedPayloadOf ⟨"jti0", "practice", ((0 : ℕ) : ℚ), ((1 : ℕ) : ℚ)⟩ ++ '.' ::
        hmacSha256Base64url "secret".data
          ([] ++ '.' :: encodedPayloadOf
            ⟨"jti0", "practice", ((0 : ℕ) : ℚ), ((1 : ℕ) : ℚ)⟩)))
      0 none "secret" =
      .ok (payloadToJsVal ⟨"jti0", "practice", ((0 : ℕ) : ℚ), ((1 : ℕ) : ℚ)⟩) := by
  constructor
  · rw [splitOnChar_append _ (List.not_mem_nil '.')]
    rfl
  · rw [verifyCore_canonical [] ⟨"jti0", "practice", ((0 : ℕ) : ℚ), ((1 : ℕ) : ℚ)⟩ 0 1
      0 none "secret" (List.not_mem_nil '.') rfl rfl]
    rw [assertValidPayload_none _ 0 none
      (by show ((1 : ℕ) : ℚ) ≠ 0; norm_num)
      (by show "practice" ≠ ""; decide)
      (by show ¬ (((1 : ℕ) : ℚ) * 1000 ≤ ((0 : ℕ) : ℚ)); push_cast; norm_num)
      (by intro h; exact absurd h (by decide))]

/-- C6 (amended): the invalid-token failures the code actually produces —
an empty token, a token that does not split into exactly three segments
(whatever their contents), and a three-segment token whose received
signature differs from the recomputed one, each fail with InvalidToken. -/
theorem c6_invalid_token_errors :
    (∀ (nowMs : Nat) (req : Option ScopeReq) (secret : String),
      verifySessionTokenCore [] nowMs req secret =
        .error (.tokenInvalid "Token is required")) ∧
    (∀ (token : List Char) (nowMs : Nat) (req : Option ScopeReq) (secret : String),
      token ≠ [] → (splitOnChar '.' token).length ≠ 3 →
      verifySessionTokenCore token nowMs req secret =
        .error (.tokenInvalid "Token format is invalid")) ∧
    (∀ (A B C : List Char) (nowMs : Nat) (req : Option ScopeReq) (secret : String),
      '.' ∉ A → '.' ∉ B → '.' ∉ C →
      C ≠ hmacSha256Base64url secret.data (A ++ '.' :: B) →
      verifySessionTokenCore (A ++ '.' :: (B ++ '.' :: C)) nowMs req secret =
        .error (.tokenInvalid "Token signature mismatch")) :=
  ⟨fun _ _ _ => rfl,
    fun token nowMs req secret h1 h2 => verifyCore_format_invalid token nowMs req secret h1 h2,
    fun A B C nowMs req secret hA hB hC hne =>
      verifyCore_sig_mismatch A B C nowMs req secret hA hB hC hne⟩

theorem c6_witness :
    verifySessionTokenCore ('a' :: 'b' :: []) 0 none "secret" =
      .error (.tokenInvalid "Token format is invalid") ∧
    verifySessionTokenCore (['a'] ++ '.' :: (['b'] ++ '.' :: ['='])) 0 none "secret" =
      .error (.tokenInvalid "Token signature mismatch") :=
  ⟨c6_invalid_token_errors.2.1 ('a' :: 'b' :: []) 0 none "secret" (by decide) (by decide),
    c6_invalid_token_errors.2.2 ['a'] ['b'] ['='] 0 none "secret" (by decide) (by decide)
      (by decide)
      (fun h => eqsign_not_mem_hmacSha256Base64url "secret".data (['a'] ++ '.' :: ['b'])
        (h ▸ List.mem_cons_self '=' []))⟩

/-! ### C7 -/

/-- C7: error precedence — a token that does not split into three segments
fails with the format InvalidToken whatever its contents; a three-segment
token with a wrong signature fails with the signature InvalidToken even when
its payload segment decodes to an expired payload; and a validly signed
token that is both expired and outside the required scope fails with
TokenExpired, not with the scope InvalidToken. -/
theorem c7_error_precedence :
    (∀ (token : List Char) (nowMs : Nat) (req : Option ScopeReq) (secret : String),
      token ≠ [] → (splitOnChar '.' token).length ≠ 3 →
      verifySessionTokenCore token nowMs req secret =
        .error (.tokenInvalid "Token format is invalid")) ∧
    (∀ (hdr C : List Char) (p : SessionTokenPayload) (ni ne : ℕ) (nowMs : Nat)
      (req : Option ScopeReq) (secret : String),
      '.' ∉ hdr → '.' ∉ C →
      p.iat = (ni : ℚ) → p.exp = (ne : ℚ) → ne * 1000 ≤ nowMs →
      C ≠ hmacSha256Base64url secret.data (hdr ++ '.' :: encodedPayloadOf p) →
      verifySessionTokenCore (hdr ++ '.' :: (encodedPayloadOf p ++ '.' :: C)) nowMs req secret =
        .error (.tokenInvalid "Token signature mismatch")) ∧
    (∀ (p : SessionTokenPayload) (ni ne : ℕ) (nowMs : Nat) (req : Option ScopeReq)
      (secret : String),
      p.iat = (ni : ℚ) → p.exp = (ne : ℚ) → 1 ≤ ne → p.scope ≠ "" →
      p.exp * 1000 ≤ (nowMs : ℚ) →
      scopeReqTruthy req = true → p.scope ∉ scopeReqList (req.getD (.single "")) →
      verifySessionToken (signPayload p secret) nowMs req secret =
        .error (.tokenExpired "Session token expired")) := by
  refine ⟨fun token nowMs req secret h1 h2 =>
      verifyCore_format_invalid token nowMs req secret h1 h2, ?_, ?_⟩
  · intro hdr C p ni ne nowMs req secret hhdr hC hi he hexp hne
    exact verifyCore_sig_mismatch hdr (encodedPayloadOf p) C nowMs req secret hhdr
      (dot_not_mem_encodedPayloadOf p) hC hne
  · intro p ni ne nowMs req secret hi he hne1 hscope hle hrq hmem
    rw [verify_signPayload_assert p ni ne nowMs req secret hi he]
    rw [assertValidPayload_expired p nowMs req
      (by rw [he]; exact_mod_cast (by omega : ne ≠ 0)) hscope hle]

theorem c7_witness :
    verifySessionTokenCore ('a' :: 'b' :: 'c' :: []) 5000 none "secret" =
      .error (.tokenInvalid "Token format is invalid") ∧
    verifySessionTokenCore
      (['h'] ++ '.' :: (encodedPayloadOf ⟨"jti0", "practice", ((0 : ℕ) : ℚ), ((1 : ℕ) : ℚ)⟩ ++
        '.' :: ['='])) 5000 none "secret" =
      .error (.tokenInvalid "Token signature mismatch") ∧
    verifySessionToken
      (signPayload ⟨"jti0", "practice", ((0 : ℕ) : ℚ), ((1 : ℕ) : ℚ)⟩ "secret") 5000
      (some (.single "other")) "secret" =
      .error (.tokenExpired "Session token expired") :=
  ⟨c7_error_precedence.1 ('a' :: 'b' :: 'c' :: []) 5000 none "secret" (by decide) (by decide),
    c7_error_precedence.2.1 ['h'] ['=']
      ⟨"jti0", "practice", ((0 : ℕ) : ℚ), ((1 : ℕ) : ℚ)⟩ 0 1 5000 none "secret"
      (by decide) (by decide) rfl rfl (by omega)
      (fun h => eqsign_not_mem_hmacSha256Base64url "secret".data
        (['h'] ++ '.' :: encodedPayloadOf ⟨"jti0", "practice", ((0 : ℕ) : ℚ), ((1 : ℕ) : ℚ)⟩)
        (h ▸ List.mem_cons_self '=' [])),
    c7_error_precedence.2.2 ⟨"jti0", "practice", ((0 : ℕ) : ℚ), ((1 : ℕ) : ℚ)⟩ 0 1 5000
      (some (.single "other")) "secret" rfl rfl (by decide) (by decide)
      (by push_cast; norm_num) (by decide) (by decide)⟩

/-! ### C8 -/

/-- C8 counterexample: Node's base64 decoder silently skips characters
outside the alphabet rather than throwing, so a header whose value contains
the invalid base64 character `!` still yields credentials instead of the
"no credentials" result the spec promises. -/
theorem c8_counterexample :
    parseBasicAuthHeader (some "Basic YT!pi") = some ("a", "b") ∧ b64val '!' = none := by
  constructor
  · simp only [parseBasicAuthHeader]
    rw [if_neg (by decide)]
    rw [if_neg (by decide)]
    rw [show ((((splitOnChar ' ' (("Basic YT!pi" : String).data)).drop 1).head?).getD []) =
      ("YT!pi" : String).data from by decide]
    rw [show bufferBase64Decode (("YT!pi" : String).data) =
      utf8Encode (("a:b" : String).data) from by decide]
    rw [utf8DecodeList_encode]
    decide
  · decide

/-- C8 (amended): `parseBasicAuthHeader` returns `none` (no credentials,
not an error) for an absent or empty header, a scheme other than
case-insensitive "basic", and a decoded payload without a colon; when the
decoded payload has a colon it splits on the first one, leaving any further
colons inside the password. -/
theorem c8_parse_credentials :
    parseBasicAuthHeader none = none ∧
    parseBasicAuthHeader (some "") = none ∧
    (∀ h : String, h ≠ "" →
      jsToLower (String.mk ((splitOnChar ' ' h.data).headD [])) ≠ "basic" →
      parseBasicAuthHeader (some h) = none) ∧
    (∀ v : List Char, ' ' ∉ v → v ≠ [] →
      ':' ∉ utf8DecodeList (bufferBase64Decode v) →
      parseBasicAuthHeader (some (String.mk ("Basic ".data ++ v))) = none) ∧
    (∀ (v u pw : List Char), ' ' ∉ v → v ≠ [] →
      utf8DecodeList (bufferBase64Decode v) = u ++ ':' :: pw → ':' ∉ u →
      parseBasicAuthHeader (some (String.mk ("Basic ".data ++ v))) =
        some (String.mk u, String.mk pw)) := by
  refine ⟨rfl, rfl, ?_, ?_, ?_⟩
  · intro h hne hsch
    simp only [parseBasicAuthHeader]
    rw [if_neg hne, if_pos (Or.inr (Or.inr (Or.inr hsch)))]
  · intro v hsp hvne hcolon
    have hmk_ne : String.mk ("Basic ".data ++ v) ≠ "" := by
      intro hcon
      have hdata := congrArg String.data hcon
      simp at hdata
    have hsplit : splitOnChar ' ' (['B', 'a', 's', 'i', 'c', ' '] ++ v) =
        [['B', 'a', 's', 'i', 'c'], v] := by
      rw [show ((['B', 'a', 's', 'i', 'c', ' '] : List Char) ++ v) =
        ['B', 'a', 's', 'i', 'c'] ++ ' ' :: v from rfl]
      rw [splitOnChar_append _ (by decide), splitOnChar_not_mem hsp]
    simp only [parseBasicAuthHeader]
    rw [if_neg hmk_ne]
    rw [hsplit]
    rw [if_neg (by
      rintro (hc | hc | hc | hc)
      · exact absurd hc (by show ¬ (['B', 'a', 's', 'i', 'c'] : List Char) = []; decide)
      · exact absurd hc (by simp)
      · exact hvne (by simpa using hc)
      · exact hc (by show jsToLower (String.mk ['B', 'a', 's', 'i', 'c']) = "basic"; decide))]
    have hdw : (utf8DecodeList (bufferBase64Decode
        (((([['B', 'a', 's', 'i', 'c'], v] : List (List Char)).drop 1).head?).getD []))).dropWhile
        (fun c => c ≠ ':') = [] := by
      rw [List.dropWhile_eq_nil_iff]
      intro x hx
      simp only [ne_eq, decide_eq_true_eq]
      intro hcon
      subst hcon
      exact hcolon (by simpa using hx)
    rw [hdw]
  · intro v u pw hsp hvne hdec hcolonu
    have hmk_ne : String.mk ("Basic ".data ++ v) ≠ "" := by
      intro hcon
      have hdata := congrArg String.data hcon
      simp at hdata
    have hsplit : splitOnChar ' ' (['B', 'a', 's', 'i', 'c', ' '] ++ v) =
        [['B', 'a', 's', 'i', 'c'], v] := by
      rw [show ((['B', 'a', 's', 'i', 'c', ' '] : List Char) ++ v) =
        ['B', 'a', 's', 'i', 'c'] ++ ' ' :: v from rfl]
      rw [splitOnChar_append _ (by decide), splitOnChar_not_mem hsp]
    simp only [parseBasicAuthHeader]
    rw [if_neg hmk_ne]
    rw [hsplit]
    rw [if_neg (by
      rintro (hc | hc | hc | hc)
      · exact absurd hc (by show ¬ (['B', 'a', 's', 'i', 'c'] : List Char) = []; decide)
      · exact absurd hc (by simp)
      · exact hvne (by simpa using hc)
      · exact hc (by show jsToLower (String.mk ['B', 'a', 's', 'i', 'c']) = "basic"; decide))]
    rw [show (((([['B', 'a', 's', 'i', 'c'], v] : List (List Char)).drop 1).head?).getD []) = v from rfl]
    rw [hdec]
    obtain ⟨htake, hdrop⟩ := takeWhile_append_first (p := fun c => c ≠ ':') ':' pw
      (fun x hx => by
        simp only [ne_eq, decide_eq_true_eq]
        intro hcon
        subst hcon
        exact hcolonu hx)
      (by simp)
    rw [hdrop]
    rw [htake]

theorem c8_witness :
    parseBasicAuthHeader (some "Bearer abc") = none ∧
    parseBasicAuthHeader (some (String.mk ("Basic ".data ++ "YWJj".data))) = none ∧
    parseBasicAuthHeader (some (String.mk ("Basic ".data ++ "YTpiOmM=".data))) =
      some ("a", "b:c") :=
  ⟨c8_parse_credentials.2.2.1 "Bearer abc" (by decide) (by decide),
    c8_parse_credentials.2.2.2.1 "YWJj".data (by decide) (by decide)
      (by
        rw [show bufferBase64Decode (("YWJj" : String).data) =
          utf8Encode (("abc" : String).data) from by decide]
        rw [utf8DecodeList_encode]
        decide),
    c8_parse_credentials.2.2.2.2 "YTpiOmM=".data "a".data "b:c".data (by decide) (by decide)
      (by
        rw [show bufferBase64Decode (("YTpiOmM=" : String).data) =
          utf8Encode (("a:b:c" : String).data) from by decide]
        rw [utf8DecodeList_encode]
        decide)
      (by decide)⟩

/-! ### C9 -/

/-- C9: the bearer branch maps engine outcomes to responses — TokenExpired
to 401 with the engine's message, TokenInvalid to 403 with the engine's
message, any other failure (the RangeError path) to 500 with the fixed
generic message, and success to 200 echoing the token with the payload's
scope and the ISO expiresAt derived from the payload. -/
theorem c9_bearer_status_mapping (t : String) (nowMs : Nat) (secret : String)
    (htrim : jsTrim t = t) (hne : t ≠ "") :
    (∀ m, verifySessionToken t nowMs none secret = .error (.tokenExpired m) →
      handleBearerToken (String.mk ("Bearer ".data ++ t.data)) nowMs secret =
        (401, .err m)) ∧
    (∀ m, verifySessionToken t nowMs none secret = .error (.tokenInvalid m) →
      handleBearerToken (String.mk ("Bearer ".data ++ t.data)) nowMs secret =
        (403, .err m)) ∧
    (∀ m, verifySessionToken t nowMs none secret = .error (.rangeError m) →
      handleBearerToken (String.mk ("Bearer ".data ++ t.data)) nowMs secret =
        (500, .err "Failed to validate session token")) ∧
    (∀ payload (q : ℚ) (iso s : String),
      verifySessionToken t nowMs none secret = .ok payload →
      jsGetField payload "exp" = some (.num q) →
      toISOStringQ (q * 1000) = some iso →
      jsGetField payload "scope" = some (.str s) →
      dateParseIsoValid iso = true → s ≠ "" →
      handleBearerToken (String.mk ("Bearer ".data ++ t.data)) nowMs secret =
        (200, .session t iso s)) := by
  have hdrop : jsTrim (String.mk ((String.mk ("Bearer ".data ++ t.data)).data.drop 7)) = t := by
    rw [show (String.mk ("Bearer ".data ++ t.data)).data = "Bearer ".data ++ t.data from rfl]
    rw [show (7 : ℕ) = ("Bearer ".data).length from rfl, List.drop_left]
    exact htrim
  refine ⟨?_, ?_, ?_, ?_⟩
  · intro m hv
    simp only [handleBearerToken]
    rw [hdrop, if_neg hne, hv]
  · intro m hv
    simp only [handleBearerToken]
    rw [hdrop, if_neg hne, hv]
  · intro m hv
    simp only [handleBearerToken]
    rw [hdrop, if_neg hne, hv]
  · intro payload q iso s hv hq hiso hs hvalid hsne
    simp only [handleBearerToken]
    rw [hdrop, if_neg hne, hv]
    try dsimp only
    rw [hq]
    try dsimp only
    rw [hiso]
    try dsimp only
    rw [hs]
    try dsimp only
    rw [if_pos ⟨hne, hvalid, hsne⟩]

theorem c9_witness :
    handleBearerToken (String.mk ("Bearer ".data ++ "bad".data)) 0 "secret" =
      (403, .err "Token format is invalid") :=
  (c9_bearer_status_mapping "bad" 0 "secret" (by decide) (by decide)).2.1
    "Token format is invalid"
    (by
      rw [verifySessionToken]
      exact verifyCore_format_invalid "bad".data 0 none "secret" (by decide) (by decide))

/-! ### C10 -/

/-- C10: verify never inspects the header segment — for every dot-free
header chars `hdr` and every canonical non-expired payload with a non-empty
scope, the token `hdr . payload . HMAC(hdr . payload)` is accepted and the
parsed payload is returned; only the payload segment is parsed. -/
theorem c10_header_not_inspected (hdr : List Char) (p : SessionTokenPayload) (ni ne : ℕ)
    (nowMs : Nat) (secret : String)
    (hhdr : '.' ∉ hdr) (hi : p.iat = (ni : ℚ)) (he : p.exp = (ne : ℚ))
    (hne : 1 ≤ ne) (hnotexp : ¬ (ne * 1000 ≤ nowMs)) (hscope : p.scope ≠ "") :
    verifySessionTokenCore
      (hdr ++ '.' :: (encodedPayloadOf p ++ '.' ::
        hmacSha256Base64url secret.data (hdr ++ '.' :: encodedPayloadOf p)))
      nowMs none secret = .ok (payloadToJsVal p) := by
  rw [verifyCore_canonical hdr p ni ne nowMs none secret hhdr hi he]
  rw [assertValidPayload_none p nowMs none
    (by rw [he]; exact_mod_cast (by omega : ne ≠ 0))
    hscope
    (by
      rw [he]
      intro hcon
      exact hnotexp (by exact_mod_cast hcon))
    (by intro h; exact absurd h (by decide))]

theorem c10_witness :
    verifySessionTokenCore
      ("not-a-jwt-header".data ++ '.' ::
        (encodedPayloadOf ⟨"jti0", "practice", ((0 : ℕ) : ℚ), ((1 : ℕ) : ℚ)⟩ ++ '.' ::
          hmacSha256Base64url "secret".data
            ("not-a-jwt-header".data ++ '.' ::
              encodedPayloadOf ⟨"jti0", "practice", ((0 : ℕ) : ℚ), ((1 : ℕ) : ℚ)⟩)))
      0 none "secret" =
      .ok (payloadToJsVal ⟨"jti0", "practice", ((0 : ℕ) : ℚ), ((1 : ℕ) : ℚ)⟩) :=
  c10_header_not_inspected "not-a-jwt-header".data
    ⟨"jti0", "practice", ((0 : ℕ) : ℚ), ((1 : ℕ) : ℚ)⟩ 0 1 0 "secret"
    (by decide) rfl rfl (by decide) (by omega) (by decide)

end Speech
